import Mathlib

/-!
Verification of the aspose-cells-python spreadsheet engine against its
natural-language specification.  The Python sources are shallowly embedded:
pure functions become Lean functions over `List Char` / `Nat` / `Int` / `ℚ`,
stateful code (the evaluator's in-progress set, the style tables) becomes
explicit state passing, exceptions become `Except`, and the recursive
formula evaluator is given explicit fuel.  Python `float` arithmetic is
idealised as exact rational arithmetic; every concrete value appearing in a
theorem is exactly representable, so the idealisation is loss-free there.
-/

namespace Aspose

/-! ## Decimal printing and parsing

Models Python's `str(int)` / `int(str)` / `str(float)` / `float(str)` on the
fragment of the grammar the library itself produces and consumes (optional
sign, decimal digits, optional point and exponent; no whitespace,
underscores, infinities or hexadecimal forms, which never occur on the
round-trip paths under scrutiny).  Loops are written with explicit fuel so
that every definition reduces by `decide` / `rfl`. -/

/-- Decimal digit character for a value `n < 10`. -/
def digitChar (n : Nat) : Char := Char.ofNat (48 + n)

/-- Big-endian decimal digits of `n`, prepended to `acc` (`str(n)` core loop).
`fuel ≥ n` makes the fuel bound irrelevant. -/
def natStrGo : Nat → Nat → List Char → List Char
  | _, 0, acc => acc
  | 0, _ + 1, acc => acc
  | fuel + 1, n + 1, acc => natStrGo fuel ((n + 1) / 10) (digitChar ((n + 1) % 10) :: acc)

/-- Python `str` of a natural number. -/
def natStr (n : Nat) : List Char := if n = 0 then ['0'] else natStrGo n n []

/-- Python `str` of an integer. -/
def intStr (i : Int) : List Char :=
  if i < 0 then '-' :: natStr i.natAbs else natStr i.natAbs

/-- Value of a digit character (partial inverse of `digitChar`). -/
def digitVal (c : Char) : Nat := c.toNat - 48

/-- Numeric value of a digit run, most significant first. -/
def digitsVal (cs : List Char) : Nat :=
  cs.foldl (fun acc c => acc * 10 + digitVal c) 0

/-- Parse a nonempty all-digit run (the `\d+` part of Python `int(s)`). -/
def parseDigits (cs : List Char) : Option Nat :=
  if cs ≠ [] ∧ cs.all Char.isDigit then some (digitsVal cs) else none

/-- Python `int(s)` on the strings this library feeds it: optional sign then
decimal digits; anything else raises `ValueError`, modelled as `none`. -/
def pyParseInt (cs : List Char) : Option Int :=
  match cs with
  | [] => none
  | c :: rest =>
    if c = '-' then (parseDigits rest).map (fun n => -(n : Int))
    else if c = '+' then (parseDigits rest).map (fun n => (n : Int))
    else (parseDigits (c :: rest)).map (fun n => (n : Int))

theorem natStrGo_append (f : Nat) :
    ∀ (n : Nat) (acc : List Char), natStrGo f n acc = natStrGo f n [] ++ acc := by
  induction f with
  | zero => intro n acc; cases n <;> simp [natStrGo]
  | succ f ih =>
    intro n acc
    cases n with
    | zero => simp [natStrGo]
    | succ m =>
      rw [natStrGo, natStrGo, ih ((m + 1) / 10), ih ((m + 1) / 10) [digitChar ((m + 1) % 10)]]
      simp

theorem natStrGo_fuel (f g : Nat) :
    ∀ (n : Nat), n ≤ f → n ≤ g → ∀ acc, natStrGo f n acc = natStrGo g n acc := by
  induction f generalizing g with
  | zero =>
    intro n hf _ acc
    interval_cases n
    cases g <;> simp [natStrGo]
  | succ f ih =>
    intro n hf hg acc
    cases n with
    | zero => cases g <;> simp [natStrGo]
    | succ m =>
      cases g with
      | zero => omega
      | succ g' =>
        rw [natStrGo, natStrGo]
        have hd : (m + 1) / 10 ≤ m := by omega
        exact ih g' ((m + 1) / 10) (by omega) (by omega) _

theorem digitChar_isDigit {n : Nat} (h : n < 10) : (digitChar n).isDigit = true := by
  interval_cases n <;> decide

theorem digitVal_digitChar {n : Nat} (h : n < 10) : digitVal (digitChar n) = n := by
  interval_cases n <;> decide

theorem natStrGo_all_digits (n : Nat) :
    (natStrGo n n []).all Char.isDigit = true := by
  induction n using Nat.strong_induction_on with
  | _ n ih =>
    match n with
    | 0 => decide
    | m + 1 =>
      rw [natStrGo, natStrGo_append]
      have hlt : (m + 1) / 10 < m + 1 := Nat.div_lt_self (Nat.succ_pos m) (by decide)
      rw [natStrGo_fuel m ((m + 1) / 10) ((m + 1) / 10) (by omega) (le_refl _)]
      simp only [List.all_append, ih _ hlt, Bool.true_and]
      simp [digitChar_isDigit (Nat.mod_lt _ (by decide))]

theorem natStr_all_digits (n : Nat) : (natStr n).all Char.isDigit = true := by
  unfold natStr
  split
  · decide
  · exact natStrGo_all_digits n

theorem natStr_ne_nil (n : Nat) : natStr n ≠ [] := by
  unfold natStr
  split
  · simp
  · rename_i h
    match n, h with
    | m + 1, _ =>
      rw [natStrGo, natStrGo_append]
      simp

theorem digitsVal_append (xs ys : List Char) :
    digitsVal (xs ++ ys) = ys.foldl (fun acc c => acc * 10 + digitVal c) (digitsVal xs) := by
  simp [digitsVal, List.foldl_append]

theorem digitsVal_natStrGo (n : Nat) : digitsVal (natStrGo n n []) = n := by
  induction n using Nat.strong_induction_on with
  | _ n ih =>
    match n with
    | 0 => decide
    | m + 1 =>
      rw [natStrGo, natStrGo_append]
      have hlt : (m + 1) / 10 < m + 1 := Nat.div_lt_self (Nat.succ_pos m) (by decide)
      rw [natStrGo_fuel m ((m + 1) / 10) ((m + 1) / 10) (by omega) (le_refl _)]
      rw [digitsVal_append]
      simp only [List.foldl_cons, List.foldl_nil, ih _ hlt]
      rw [digitVal_digitChar (Nat.mod_lt _ (by decide))]
      omega

theorem digitsVal_natStr (n : Nat) : digitsVal (natStr n) = n := by
  unfold natStr
  split
  · rename_i h
    rw [h]; decide
  · exact digitsVal_natStrGo n

theorem parseDigits_natStr (n : Nat) : parseDigits (natStr n) = some n := by
  unfold parseDigits
  rw [if_pos ⟨natStr_ne_nil n, natStr_all_digits n⟩, digitsVal_natStr]

theorem natStr_head_digit (n : Nat) :
    ∃ c cs, natStr n = c :: cs ∧ c.isDigit = true := by
  have hne := natStr_ne_nil n
  have hall := natStr_all_digits n
  match h : natStr n with
  | [] => exact absurd h hne
  | c :: cs =>
    refine ⟨c, cs, rfl, ?_⟩
    rw [h] at hall
    simp [List.all_cons] at hall
    exact hall.1

theorem pyParseInt_natStr (n : Nat) : pyParseInt (natStr n) = some (n : Int) := by
  obtain ⟨c, cs, heq, hdig⟩ := natStr_head_digit n
  have hc1 : ¬ c = '-' := by
    intro h; rw [h] at hdig; exact absurd hdig (by decide)
  have hc2 : ¬ c = '+' := by
    intro h; rw [h] at hdig; exact absurd hdig (by decide)
  rw [heq]
  show (if c = '-' then (parseDigits cs).map (fun n => -(n : Int))
    else if c = '+' then (parseDigits cs).map (fun n => (n : Int))
    else (parseDigits (c :: cs)).map (fun n => (n : Int))) = some (n : Int)
  rw [if_neg hc1, if_neg hc2, ← heq, parseDigits_natStr]
  rfl

theorem pyParseInt_intStr (i : Int) : pyParseInt (intStr i) = some i := by
  unfold intStr
  split
  · rename_i hneg
    show pyParseInt ('-' :: natStr i.natAbs) = some i
    have : pyParseInt ('-' :: natStr i.natAbs)
        = (parseDigits (natStr i.natAbs)).map (fun n => -(n : Int)) := by
      show (if ('-' : Char) = '-' then (parseDigits (natStr i.natAbs)).map (fun n => -(n : Int))
        else if ('-' : Char) = '+' then (parseDigits (natStr i.natAbs)).map (fun n => (n : Int))
        else (parseDigits ('-' :: natStr i.natAbs)).map (fun n => (n : Int)))
        = (parseDigits (natStr i.natAbs)).map (fun n => -(n : Int))
      rw [if_pos rfl]
    rw [this, parseDigits_natStr]
    show some (-(i.natAbs : Int)) = some i
    rw [Int.ofNat_natAbs_of_nonpos (le_of_lt hneg), neg_neg]
  · rename_i hpos
    rw [pyParseInt_natStr]
    rw [Int.natAbs_of_nonneg (not_lt.mp hpos)]

/-! ## Python float printing and parsing

Python `float`s are idealised as rationals.  `str(float)` prints the exact
shortest decimal expansion (matching CPython for every decimal-representable
value; the switch to exponent notation for extreme magnitudes is outside the
model), and `float(str)` parses sign, digits, optional point and optional
exponent. -/

/-- Number of times `p` divides `n` (`fuel ≥ n` suffices). -/
def factorCountGo : Nat → Nat → Nat → Nat
  | 0, _, _ => 0
  | fuel + 1, p, n =>
    if 2 ≤ p ∧ n ≠ 0 ∧ n % p = 0 then factorCountGo fuel p (n / p) + 1 else 0

/-- Number of times `p` divides `n`. -/
def factorCount (p n : Nat) : Nat := factorCountGo n p n

/-- Count of decimal digits Python prints after the point for a float of
reduced denominator `den`: the least `d` with `den ∣ 10 ^ d`, but at least 1
(`str(2.0) = "2.0"`); `none` when the value is not decimal-representable. -/
def decExp (den : Nat) : Option Nat :=
  let a := factorCount 2 den
  let b := factorCount 5 den
  if den = 2 ^ a * 5 ^ b then some (max (max a b) 1) else none

/-- Left-pad a digit run with zeros to the given length. -/
def padZeros (cs : List Char) (len : Nat) : List Char :=
  List.replicate (len - cs.length) '0' ++ cs

/-- Digits of the nonnegative fixed-point value `w / 10 ^ d` with the decimal
point inserted `d` places from the right. -/
def upartStr (w : Nat) (d : Nat) : List Char :=
  let s := padZeros (natStr w) (d + 1)
  s.take (s.length - d) ++ '.' :: s.drop (s.length - d)

/-- Fixed-point decimal rendering of `m / 10 ^ d` with sign. -/
def fixedPointStr (m : Int) (d : Nat) : List Char :=
  (if m < 0 then ['-'] else []) ++ upartStr m.natAbs d

/-- Python `str` of a (decimal-representable) float. -/
def pyFloatStr (q : ℚ) : List Char :=
  match decExp q.den with
  | some d => fixedPointStr (q.num * ((10 ^ d) / q.den : Nat)) d
  | none => ['0', '.', '0']


/-! ## Kernel-reducible rational arithmetic

Mathlib's `ℚ` operations normalize through `Nat.gcd`, which is defined by
well-founded recursion and therefore does not reduce inside the kernel; a
`rfl`-style evaluation of the embedded interpreter would get stuck.  The
arithmetic used on the executable paths is therefore re-implemented with a
fuelled (structural) gcd and proved equal to the `ℚ` field operations, so
values stay ordinary rationals while every computation reduces. -/

/-- Structural gcd (`fuel > m` suffices). -/
def natGcdF : Nat → Nat → Nat → Nat
  | 0, _, n => n
  | _ + 1, 0, n => n
  | fuel + 1, m + 1, n => natGcdF fuel (n % (m + 1)) (m + 1)

theorem natGcdF_eq : ∀ (fuel m n : Nat), m < fuel → natGcdF fuel m n = Nat.gcd m n := by
  intro fuel
  induction fuel with
  | zero => intro m n h; omega
  | succ f ih =>
    intro m n h
    match m with
    | 0 => rw [natGcdF, Nat.gcd_zero_left]
    | k + 1 =>
      rw [natGcdF, ih (n % (k + 1)) (k + 1) (by have := Nat.mod_lt n (y := k + 1) (by omega); omega),
        Nat.gcd_succ]

/-- Normalized rational `n / d` built with the structural gcd; reduces by
`rfl` wherever Python would compute a concrete float. -/
def mkRatN (n : Int) (d : Nat) : ℚ :=
  if hd : d = 0 then 0
  else
    let g := natGcdF (n.natAbs + 1) n.natAbs d
    have hg : g = Nat.gcd n.natAbs d := natGcdF_eq _ _ _ (Nat.lt_succ_self _)
    have hg0 : 0 < g := by
      rw [hg]
      exact Nat.gcd_pos_of_pos_right _ (Nat.pos_of_ne_zero hd)
    let na := n.natAbs / g
    let num : Int := if n < 0 then -(na : Int) else (na : Int)
    have hden : d / g ≠ 0 := by
      have hdvd : g ∣ d := by rw [hg]; exact Nat.gcd_dvd_right _ _
      have := Nat.div_pos (Nat.le_of_dvd (Nat.pos_of_ne_zero hd) hdvd) hg0
      omega
    have hco : num.natAbs.Coprime (d / g) := by
      have hna : num.natAbs = na := by
        by_cases hn : n < 0 <;> simp [num, hn]
      rw [hna]
      show Nat.Coprime (n.natAbs / g) (d / g)
      rw [hg]
      exact Nat.coprime_div_gcd_div_gcd (by rw [← hg]; exact hg0)
    Rat.mk' num (d / g) hden hco

theorem mkRatN_eq (n : Int) (d : Nat) : mkRatN n d = (n : ℚ) / (d : ℚ) := by
  rw [mkRatN]
  split
  · rename_i hd
    rw [hd]
    simp
  · rename_i hd
    simp only [Rat.mk_eq_mkRat, Rat.mkRat_eq_divInt, Rat.divInt_eq_div]
    set g := natGcdF (n.natAbs + 1) n.natAbs d with hgdef
    have hg : g = Nat.gcd n.natAbs d := natGcdF_eq _ _ _ (Nat.lt_succ_self _)
    have hg0 : 0 < g := by
      rw [hg]
      exact Nat.gcd_pos_of_pos_right _ (Nat.pos_of_ne_zero hd)
    have hdvdn : g ∣ n.natAbs := by rw [hg]; exact Nat.gcd_dvd_left _ _
    have hdvdd : g ∣ d := by rw [hg]; exact Nat.gcd_dvd_right _ _
    have hnum : (if n < 0 then -((n.natAbs / g : Nat) : Int) else ((n.natAbs / g : Nat) : Int)) * g = n := by
      have hcast : ((n.natAbs / g : ℕ) : ℤ) * (g : ℤ) = (n.natAbs : ℤ) := by
        exact_mod_cast congrArg (fun m : ℕ => (m : ℤ)) (Nat.div_mul_cancel hdvdn)
      by_cases hn : n < 0
      · rw [if_pos hn, neg_mul, hcast, Int.ofNat_natAbs_of_nonpos (le_of_lt hn), neg_neg]
      · rw [if_neg hn, hcast, Int.natAbs_of_nonneg (not_lt.mp hn)]
    have hden : (d / g) * g = d := Nat.div_mul_cancel hdvdd
    have hgq : ((g : ℚ)) ≠ 0 := by
      exact_mod_cast Nat.pos_iff_ne_zero.mp hg0
    have hdq : ((d : ℚ)) ≠ 0 := by
      exact_mod_cast hd
    rw [div_eq_div_iff (by
        have : (0 : ℚ) < ((d / g : Nat) : ℚ) := by
          exact_mod_cast Nat.div_pos (Nat.le_of_dvd (Nat.pos_of_ne_zero hd) hdvdd) hg0
        exact ne_of_gt this) hdq]
    have hnq : (((if n < 0 then -((n.natAbs / g : Nat) : Int) else ((n.natAbs / g : Nat) : Int)) : ℤ) : ℚ) * (g : ℚ) = (n : ℚ) := by
      exact_mod_cast congrArg (fun z : ℤ => (z : ℚ)) hnum
    have hdq2 : (((d / g : Nat) : ℚ)) * (g : ℚ) = (d : ℚ) := by
      exact_mod_cast congrArg (fun z : ℕ => (z : ℚ)) hden
    calc (((if n < 0 then -((n.natAbs / g : Nat) : Int) else ((n.natAbs / g : Nat) : Int)) : ℤ) : ℚ) * (d : ℚ)
        = ((((if n < 0 then -((n.natAbs / g : Nat) : Int) else ((n.natAbs / g : Nat) : Int)) : ℤ) : ℚ) * (g : ℚ)) * (((d / g : Nat) : ℚ)) := by
          rw [mul_assoc, mul_comm ((g : ℚ))]
          rw [hdq2]
      _ = (n : ℚ) * (((d / g : Nat) : ℚ)) := by rw [hnq]

/-- Reducible addition on `ℚ`. -/
def ratAdd (a b : ℚ) : ℚ := mkRatN (a.num * b.den + b.num * a.den) (a.den * b.den)

/-- Reducible subtraction on `ℚ`. -/
def ratSub (a b : ℚ) : ℚ := mkRatN (a.num * b.den - b.num * a.den) (a.den * b.den)

/-- Reducible multiplication on `ℚ`. -/
def ratMul (a b : ℚ) : ℚ := mkRatN (a.num * b.num) (a.den * b.den)

/-- Reducible inverse on `ℚ`. -/
def ratInv (b : ℚ) : ℚ :=
  if b.num < 0 then mkRatN (-(b.den : Int)) b.num.natAbs
  else mkRatN (b.den : Int) b.num.natAbs

/-- Reducible division on `ℚ`. -/
def ratDiv (a b : ℚ) : ℚ := ratMul a (ratInv b)

/-- Reducible natural power on `ℚ`. -/
def ratPowN (a : ℚ) : Nat → ℚ
  | 0 => 1
  | k + 1 => ratMul a (ratPowN a k)

/-- Reducible integer power on `ℚ`. -/
def ratZpow (a : ℚ) (k : Int) : ℚ :=
  if k < 0 then ratInv (ratPowN a (-k).toNat) else ratPowN a k.toNat

theorem den_cast_ne_zero (a : ℚ) : ((a.den : ℚ)) ≠ 0 := by
  have := a.den_nz
  exact_mod_cast this

theorem ratAdd_eq (a b : ℚ) : ratAdd a b = a + b := by
  rw [ratAdd, mkRatN_eq]
  conv_rhs => rw [← Rat.num_div_den a, ← Rat.num_div_den b]
  have ha := den_cast_ne_zero a
  have hb := den_cast_ne_zero b
  field_simp <;> push_cast <;> ring

theorem ratSub_eq (a b : ℚ) : ratSub a b = a - b := by
  rw [ratSub, mkRatN_eq]
  conv_rhs => rw [← Rat.num_div_den a, ← Rat.num_div_den b]
  have ha := den_cast_ne_zero a
  have hb := den_cast_ne_zero b
  field_simp <;> push_cast <;> ring

theorem ratMul_eq (a b : ℚ) : ratMul a b = a * b := by
  rw [ratMul, mkRatN_eq]
  conv_rhs => rw [← Rat.num_div_den a, ← Rat.num_div_den b]
  have ha := den_cast_ne_zero a
  have hb := den_cast_ne_zero b
  field_simp <;> push_cast <;> ring

theorem ratInv_eq (b : ℚ) : ratInv b = b⁻¹ := by
  rw [ratInv]
  by_cases hb : b.num < 0
  · rw [if_pos hb, mkRatN_eq]
    rw [← Rat.num_div_den b, inv_div]
    rw [Rat.num_div_den b]
    have : ((b.num.natAbs : ℚ)) = -((b.num : ℚ)) := by
      have h3 : ((b.num.natAbs : ℤ) : ℚ) = ((-b.num : ℤ) : ℚ) :=
        congrArg (fun z : ℤ => (z : ℚ)) (Int.ofNat_natAbs_of_nonpos (le_of_lt hb))
      rw [Int.cast_natCast] at h3
      rw [h3]
      push_cast
      ring
    rw [this]
    push_cast
    rw [div_neg, neg_div, neg_neg]
  · rw [if_neg hb, mkRatN_eq]
    rw [← Rat.num_div_den b, inv_div]
    rw [Rat.num_div_den b]
    have : ((b.num.natAbs : ℚ)) = ((b.num : ℚ)) := by
      have h3 : ((b.num.natAbs : ℤ) : ℚ) = ((b.num : ℤ) : ℚ) :=
        congrArg (fun z : ℤ => (z : ℚ)) (Int.natAbs_of_nonneg (not_lt.mp hb))
      rw [Int.cast_natCast] at h3
      rw [h3]
    rw [this]
    push_cast
    rfl

theorem ratDiv_eq (a b : ℚ) : ratDiv a b = a / b := by
  rw [ratDiv, ratMul_eq, ratInv_eq, div_eq_mul_inv]

theorem ratPowN_eq (a : ℚ) (k : Nat) : ratPowN a k = a ^ k := by
  induction k with
  | zero => rw [ratPowN, pow_zero]
  | succ k ih => rw [ratPowN, ratMul_eq, ih, pow_succ, mul_comm]

theorem ratZpow_eq (a : ℚ) (k : Int) : ratZpow a k = a ^ k := by
  rw [ratZpow]
  by_cases hk : k < 0
  · rw [if_pos hk, ratInv_eq, ratPowN_eq]
    rw [← zpow_natCast a ((-k).toNat), ← zpow_neg]
    congr 1
    omega
  · rw [if_neg hk, ratPowN_eq]
    rw [← zpow_natCast a k.toNat]
    congr 1
    omega

/-- Rational value `(ip).(fp) × 10 ^ ex` assembled from parsed digit runs
(kernel-reducible construction). -/
def mkDec (ip fp : List Char) (ex : Int) : ℚ :=
  let base : Nat := digitsVal ip * 10 ^ fp.length + digitsVal fp
  if 0 ≤ ex then mkRatN (base * 10 ^ ex.toNat) (10 ^ fp.length)
  else mkRatN base (10 ^ fp.length * 10 ^ (-ex).toNat)

theorem mkDec_eq (ip fp : List Char) (ex : Int) :
    mkDec ip fp ex
      = ((digitsVal ip : ℚ) + (digitsVal fp : ℚ) / (10 : ℚ) ^ fp.length)
          * (10 : ℚ) ^ ex := by
  rw [mkDec]
  have h10 : ((10 : ℚ)) ^ fp.length ≠ 0 := by positivity
  by_cases hex : 0 ≤ ex
  · rw [if_pos hex, mkRatN_eq]
    rw [show ex = ((ex.toNat : Int)) by omega, zpow_natCast]
    rw [show ((ex.toNat : Int)).toNat = ex.toNat by omega]
    have h2 : ((10 : ℚ)) ^ ex.toNat ≠ 0 := by positivity
    field_simp <;> push_cast <;> ring
  · rw [if_neg hex, mkRatN_eq]
    rw [show ex = -(((-ex).toNat : Int)) by omega, zpow_neg, zpow_natCast]
    rw [show (-(-((-ex).toNat : Int))).toNat = (-ex).toNat by omega]
    have h2 : ((10 : ℚ)) ^ (-ex).toNat ≠ 0 := by positivity
    field_simp <;> push_cast <;> ring

/-- Unsigned part of Python `float(s)`: digits, optional point, optional
exponent. -/
def parseUFloat (cs : List Char) : Option ℚ :=
  let ip := cs.takeWhile Char.isDigit
  let rest1 := cs.dropWhile Char.isDigit
  match rest1 with
  | [] => if ip = [] then none else some (mkDec ip [] 0)
  | c :: rest2 =>
    if c = '.' then
      let fp := rest2.takeWhile Char.isDigit
      let rest3 := rest2.dropWhile Char.isDigit
      if ip = [] ∧ fp = [] then none
      else match rest3 with
        | [] => some (mkDec ip fp 0)
        | e :: rest4 =>
          if e = 'e' ∨ e = 'E' then (pyParseInt rest4).map (mkDec ip fp) else none
    else if (c = 'e' ∨ c = 'E') ∧ ip ≠ [] then
      (pyParseInt rest2).map (mkDec ip [])
    else none

/-- Python `float(s)` on the grammar fragment this library emits. -/
def pyParseFloat (cs : List Char) : Option ℚ :=
  match cs with
  | [] => none
  | c :: rest =>
    if c = '-' then (parseUFloat rest).map (fun q => -q)
    else if c = '+' then parseUFloat rest
    else parseUFloat (c :: rest)

theorem takeWhile_all_append {p : Char → Bool} {xs : List Char} (ys : List Char)
    (h : xs.all p) : (xs ++ ys).takeWhile p = xs ++ ys.takeWhile p := by
  induction xs with
  | nil => simp
  | cons x xs ih =>
    simp only [List.all_cons, Bool.and_eq_true] at h
    simp [List.takeWhile_cons, h.1, ih h.2]

theorem dropWhile_all_append {p : Char → Bool} {xs : List Char} (ys : List Char)
    (h : xs.all p) : (xs ++ ys).dropWhile p = ys.dropWhile p := by
  induction xs with
  | nil => simp
  | cons x xs ih =>
    simp only [List.all_cons, Bool.and_eq_true] at h
    simp [List.dropWhile_cons, h.1, ih h.2]

theorem digitsVal_from (a : Nat) (ys : List Char) :
    ys.foldl (fun acc c => acc * 10 + digitVal c) a
      = a * 10 ^ ys.length + digitsVal ys := by
  induction ys generalizing a with
  | nil => simp [digitsVal]
  | cons y ys ih =>
    have h1 : digitsVal (y :: ys) = (0 * 10 + digitVal y) * 10 ^ ys.length + digitsVal ys := by
      show List.foldl _ (0 * 10 + digitVal y) ys = _
      exact ih _
    simp only [List.foldl_cons, List.length_cons, h1]
    rw [ih (a * 10 + digitVal y)]
    ring

theorem digitsVal_concat (xs ys : List Char) :
    digitsVal (xs ++ ys) = digitsVal xs * 10 ^ ys.length + digitsVal ys := by
  rw [digitsVal, List.foldl_append, ← digitsVal, digitsVal_from]

theorem digitsVal_replicate_zero (k : Nat) : digitsVal (List.replicate k '0') = 0 := by
  induction k with
  | zero => rfl
  | succ k ih =>
    rw [List.replicate_succ]
    show List.foldl (fun acc c => acc * 10 + digitVal c) (0 * 10 + digitVal '0')
      (List.replicate k '0') = 0
    rw [digitsVal_from]
    have h0 : (0 * 10 + digitVal '0') = 0 := by decide
    rw [h0, ih]
    simp

theorem digitsVal_padZeros (cs : List Char) (len : Nat) :
    digitsVal (padZeros cs len) = digitsVal cs := by
  rw [padZeros, digitsVal_concat, digitsVal_replicate_zero]
  simp

theorem padZeros_all_digits (cs : List Char) (len : Nat) (h : cs.all Char.isDigit) :
    (padZeros cs len).all Char.isDigit = true := by
  rw [padZeros]
  simp only [List.all_append, h, Bool.and_true]
  simp [List.all_eq_true]

theorem padZeros_length (cs : List Char) (len : Nat) :
    (padZeros cs len).length = max len cs.length := by
  simp [padZeros]
  omega

theorem takeWhile_all_self {p : Char → Bool} {xs : List Char} (h : xs.all p) :
    xs.takeWhile p = xs := by
  have := takeWhile_all_append (p := p) [] h
  simpa using this

theorem dropWhile_all_self {p : Char → Bool} {xs : List Char} (h : xs.all p) :
    xs.dropWhile p = [] := by
  have := dropWhile_all_append (p := p) [] h
  simpa using this

theorem parseUFloat_point (ip fp : List Char) (hip : ip.all Char.isDigit)
    (hne : ip ≠ []) (hfp : fp.all Char.isDigit) :
    parseUFloat (ip ++ '.' :: fp)
      = some ((digitsVal ip : ℚ) + (digitsVal fp : ℚ) / (10 : ℚ) ^ fp.length) := by
  have hpt : Char.isDigit '.' = false := by decide
  have h1 : (ip ++ '.' :: fp).takeWhile Char.isDigit = ip := by
    rw [takeWhile_all_append _ hip]
    simp [List.takeWhile_cons, hpt]
  have h2 : (ip ++ '.' :: fp).dropWhile Char.isDigit = '.' :: fp := by
    rw [dropWhile_all_append _ hip]
    simp [List.dropWhile_cons, hpt]
  simp only [parseUFloat, h1, h2]
  simp only [if_true]
  rw [takeWhile_all_self hfp, dropWhile_all_self hfp,
    if_neg (by intro h; exact hne h.1)]
  show some (mkDec ip fp 0) = _
  congr 1
  rw [mkDec]
  norm_num
  rw [mkRatN_eq]
  have h10 : ((10 : ℚ)) ^ fp.length ≠ 0 := by positivity
  push_cast
  field_simp

theorem parseUFloat_upart (w d : Nat) :
    parseUFloat (upartStr w d) = some ((w : ℚ) / (10 : ℚ) ^ d) := by
  rw [upartStr]
  set s := padZeros (natStr w) (d + 1) with hs
  have hall : s.all Char.isDigit = true := padZeros_all_digits _ _ (natStr_all_digits w)
  have hlen : d + 1 ≤ s.length := by
    rw [hs, padZeros_length]
    have := List.length_pos.mpr (natStr_ne_nil w)
    omega
  have htk : (s.take (s.length - d)).all Char.isDigit = true := by
    rw [List.all_eq_true] at hall ⊢
    exact fun c hc => hall c (List.mem_of_mem_take hc)
  have hdr : (s.drop (s.length - d)).all Char.isDigit = true := by
    rw [List.all_eq_true] at hall ⊢
    exact fun c hc => hall c (List.mem_of_mem_drop hc)
  have hiplen : (s.take (s.length - d)).length = s.length - d := by
    rw [List.length_take]; omega
  have hipne : s.take (s.length - d) ≠ [] := by
    intro h
    have := congrArg List.length h
    rw [hiplen] at this
    simp at this
    omega
  have hfplen : (s.drop (s.length - d)).length = d := by
    rw [List.length_drop]; omega
  rw [parseUFloat_point _ _ htk hipne hdr]
  congr 1
  have hval : digitsVal (s.take (s.length - d)) * 10 ^ d + digitsVal (s.drop (s.length - d))
      = w := by
    have hcat := digitsVal_concat (s.take (s.length - d)) (s.drop (s.length - d))
    rw [List.take_append_drop, hfplen] at hcat
    rw [← hcat, hs, digitsVal_padZeros, digitsVal_natStr]
  rw [hfplen]
  have h10 : ((10 : ℚ) ^ d) ≠ 0 := by positivity
  field_simp
  push_cast [← hval]
  ring

theorem upartStr_head_digit (w d : Nat) :
    ∃ c cs, upartStr w d = c :: cs ∧ c.isDigit = true := by
  rw [upartStr]
  set s := padZeros (natStr w) (d + 1) with hs
  have hall : s.all Char.isDigit = true := padZeros_all_digits _ _ (natStr_all_digits w)
  have hlen : d + 1 ≤ s.length := by
    rw [hs, padZeros_length]
    have := List.length_pos.mpr (natStr_ne_nil w)
    omega
  match h : s.take (s.length - d) with
  | [] =>
    exfalso
    have hl := congrArg List.length h
    rw [List.length_take] at hl
    simp at hl
    omega
  | c :: cs' =>
    refine ⟨c, cs' ++ '.' :: s.drop (s.length - d), by simp, ?_⟩
    have hc : c ∈ s := List.mem_of_mem_take (l := s) (by rw [h]; exact List.mem_cons_self _ _)
    rw [List.all_eq_true] at hall
    exact hall c hc

theorem pyParseFloat_fixedPoint (m : Int) (d : Nat) :
    pyParseFloat (fixedPointStr m d) = some ((m : ℚ) / (10 : ℚ) ^ d) := by
  rw [fixedPointStr]
  split
  · rename_i hneg
    show pyParseFloat ('-' :: upartStr m.natAbs d) = _
    have step : pyParseFloat ('-' :: upartStr m.natAbs d)
        = (parseUFloat (upartStr m.natAbs d)).map (fun q => -q) := by
      show (if ('-' : Char) = '-' then (parseUFloat (upartStr m.natAbs d)).map (fun q => -q)
        else if ('-' : Char) = '+' then parseUFloat (upartStr m.natAbs d)
        else parseUFloat ('-' :: upartStr m.natAbs d)) = _
      rw [if_pos rfl]
    rw [step, parseUFloat_upart]
    show some (-((m.natAbs : ℚ) / (10 : ℚ) ^ d)) = _
    congr 1
    have h3 : ((m.natAbs : ℤ) : ℚ) = ((-m : ℤ) : ℚ) :=
      congrArg (fun z : ℤ => (z : ℚ)) (Int.ofNat_natAbs_of_nonpos (le_of_lt hneg))
    have h4 : ((m.natAbs : ℚ)) = -(m : ℚ) := by
      rw [Int.cast_natCast] at h3
      rw [h3]
      push_cast
      ring
    rw [h4]
    ring
  · rename_i hpos
    show pyParseFloat (upartStr m.natAbs d) = _
    obtain ⟨c, cs, heq, hdig⟩ := upartStr_head_digit m.natAbs d
    rw [heq]
    have hc1 : ¬ c = '-' := by intro h; rw [h] at hdig; exact absurd hdig (by decide)
    have hc2 : ¬ c = '+' := by intro h; rw [h] at hdig; exact absurd hdig (by decide)
    show (if c = '-' then (parseUFloat cs).map (fun q => -q)
      else if c = '+' then parseUFloat cs
      else parseUFloat (c :: cs)) = _
    rw [if_neg hc1, if_neg hc2, ← heq, parseUFloat_upart]
    congr 2
    have h3 : ((m.natAbs : ℤ) : ℚ) = (m : ℚ) :=
      congrArg (fun z : ℤ => (z : ℚ)) (Int.natAbs_of_nonneg (not_lt.mp hpos))
    have h4 : ((m.natAbs : ℚ)) = (m : ℚ) := by
      rw [Int.cast_natCast] at h3
      rw [h3]
    rw [h4]

/-- The printed form of a decimal float always contains a point (so the
reader's `'.' in raw` dispatch sends it down the `float` branch). -/
theorem fixedPointStr_has_point (m : Int) (d : Nat) :
    ('.' ∈ fixedPointStr m d) := by
  rw [fixedPointStr, upartStr]
  simp

theorem digit_bounds {c : Char} (h : c.isDigit = true) :
    48 ≤ c.val.toNat ∧ c.val.toNat ≤ 57 := by
  simp [Char.isDigit] at h
  exact h

theorem digit_toLower_ne_e {c : Char} (h : c.isDigit = true) : c.toLower ≠ 'e' := by
  obtain ⟨h1, h2⟩ := digit_bounds h
  rw [Char.toLower]
  have hn : ¬ (c.toNat ≥ 65 ∧ c.toNat ≤ 90) := by
    rw [Char.toNat]
    omega
  rw [if_neg hn]
  intro habs
  rw [habs] at h2
  revert h2
  decide

/-- Integer reprs contain neither a point nor an exponent letter (so the
reader's dispatch sends them down the `int` branch). -/
theorem intStr_no_point_no_e (i : Int) :
    ('.' ∉ intStr i) ∧ ('e' ∉ (intStr i).map Char.toLower) := by
  have key : ∀ n : Nat, ('.' ∉ natStr n) ∧ ('e' ∉ (natStr n).map Char.toLower) := by
    intro n
    have hall := natStr_all_digits n
    rw [List.all_eq_true] at hall
    constructor
    · intro hmem
      have := hall _ hmem
      exact absurd this (by decide)
    · intro hmem
      rw [List.mem_map] at hmem
      obtain ⟨c, hc, hcl⟩ := hmem
      exact digit_toLower_ne_e (hall _ hc) hcl
  rw [intStr]
  split
  · constructor
    · intro h
      rcases List.mem_cons.mp h with h | h
      · exact absurd h.symm (by decide)
      · exact (key _).1 h
    · intro h
      rw [List.map_cons] at h
      rcases List.mem_cons.mp h with h | h
      · exact absurd h.symm (by decide)
      · exact (key _).2 h
  · exact key _

/-! ## Coordinate conversion — src/aspose/cells/utils/coordinates.py

`column_index_to_letter`, `column_letter_to_index`, `coordinate_to_tuple`
and `tuple_to_coordinate`, with Python exceptions modelled as `Except`.
The regex `^([A-Z]+)(\\d+)$` is modelled by the equivalent maximal-prefix
decomposition; Python's unicode-wide `isalpha`/`upper` are modelled on the
ASCII range actually reachable here. -/

/-- Character class `[A-Z]` of the coordinate regex. -/
def isUpperAZ (c : Char) : Bool := decide (65 ≤ c.toNat ∧ c.toNat ≤ 90)

/-- Python `str.isalpha()` restricted to ASCII letters. -/
def isAsciiAlpha (c : Char) : Bool :=
  decide ((65 ≤ c.toNat ∧ c.toNat ≤ 90) ∨ (97 ≤ c.toNat ∧ c.toNat ≤ 122))

/-- Python `str.upper()` on one ASCII character. -/
def pyUpper (c : Char) : Char := Char.toUpper c

/-- Loop of `column_index_to_letter`: repeatedly `index -= 1`, prepend
`chr(65 + index % 26)`, `index //= 26` (`fuel ≥ n` suffices). -/
def colLetterGo : Nat → Nat → List Char → List Char
  | _, 0, acc => acc
  | 0, _ + 1, acc => acc
  | fuel + 1, n + 1, acc => colLetterGo fuel (n / 26) (Char.ofNat (65 + n % 26) :: acc)

/-- `column_index_to_letter(index)`: 1-based column index to Excel letters. -/
def column_index_to_letter (index : Nat) : Except String (List Char) :=
  if index < 1 then .error "Column index must be >= 1"
  else .ok (colLetterGo index index [])

/-- `column_letter_to_index(letter)`: Excel letters to 1-based index. -/
def column_letter_to_index (letter : List Char) : Except String Nat :=
  if letter = [] ∨ ¬ (letter.all isAsciiAlpha) then .error "Invalid column letter"
  else .ok (letter.foldl (fun r c => r * 26 + ((pyUpper c).toNat - 65 + 1)) 0)

/-- `coordinate_to_tuple(coordinate)`: `A1`-style reference to `(row, col)`. -/
def coordinate_to_tuple (coordinate : List Char) : Except String (Nat × Nat) :=
  let up := coordinate.map pyUpper
  let letters := up.takeWhile isUpperAZ
  let rest := up.dropWhile isUpperAZ
  if letters = [] ∨ rest = [] ∨ ¬ (rest.all Char.isDigit) then
    .error "Invalid coordinate format"
  else
    let row := digitsVal rest
    match column_letter_to_index letters with
    | .error e => .error e
    | .ok col =>
      if row < 1 then .error "Row number must be >= 1" else .ok (row, col)

/-- `tuple_to_coordinate(row, column)`: `(row, col)` to `A1`-style reference. -/
def tuple_to_coordinate (row column : Nat) : Except String (List Char) :=
  if row < 1 ∨ column < 1 then .error "Row and column must be >= 1"
  else match column_index_to_letter column with
    | .error e => .error e
    | .ok ls => .ok (ls ++ natStr row)

theorem colLetterGo_append (f : Nat) :
    ∀ (n : Nat) (acc : List Char), colLetterGo f n acc = colLetterGo f n [] ++ acc := by
  induction f with
  | zero => intro n acc; cases n <;> simp [colLetterGo]
  | succ f ih =>
    intro n acc
    cases n with
    | zero => simp [colLetterGo]
    | succ m =>
      rw [colLetterGo, colLetterGo, ih (m / 26), ih (m / 26) [Char.ofNat (65 + m % 26)]]
      simp

theorem colLetterGo_fuel (f g : Nat) :
    ∀ (n : Nat), n ≤ f → n ≤ g → ∀ acc, colLetterGo f n acc = colLetterGo g n acc := by
  induction f generalizing g with
  | zero =>
    intro n hf _ acc
    interval_cases n
    cases g <;> simp [colLetterGo]
  | succ f ih =>
    intro n hf hg acc
    cases n with
    | zero => cases g <;> simp [colLetterGo]
    | succ m =>
      cases g with
      | zero => omega
      | succ g' =>
        rw [colLetterGo, colLetterGo]
        exact ih g' (m / 26) (by omega) (by omega) _

theorem char_toNat_ofNat {n : Nat} (h : n < 55296) : (Char.ofNat n).toNat = n := by
  rw [Char.ofNat, dif_pos (Or.inl h), Char.ofNatAux]
  simp [Char.toNat, UInt32.toNat]

theorem colLetter_char_bounds (m : Nat) :
    65 ≤ (Char.ofNat (65 + m % 26)).toNat ∧ (Char.ofNat (65 + m % 26)).toNat ≤ 90 := by
  have hm : m % 26 < 26 := Nat.mod_lt _ (by decide)
  rw [char_toNat_ofNat (by omega)]
  omega

theorem colLetterGo_all_upper (n : Nat) :
    (colLetterGo n n []).all isUpperAZ = true := by
  induction n using Nat.strong_induction_on with
  | _ n ih =>
    match n with
    | 0 => decide
    | m + 1 =>
      rw [colLetterGo, colLetterGo_append]
      have hlt : m / 26 < m + 1 := by omega
      rw [colLetterGo_fuel m (m / 26) (m / 26) (by omega) (le_refl _)]
      simp only [List.all_append, ih _ hlt, Bool.true_and]
      have hb := colLetter_char_bounds m
      simp [isUpperAZ]
      omega

/-- Letter-fold value used by `column_letter_to_index` (on already-upper
input). -/
def colVal (cs : List Char) : Nat :=
  cs.foldl (fun r c => r * 26 + (c.toNat - 65 + 1)) 0

theorem colVal_from (a : Nat) (ys : List Char) :
    ys.foldl (fun r c => r * 26 + (c.toNat - 65 + 1)) a
      = a * 26 ^ ys.length + colVal ys := by
  induction ys generalizing a with
  | nil => simp [colVal]
  | cons y ys ih =>
    have h1 : colVal (y :: ys) = (0 * 26 + (y.toNat - 65 + 1)) * 26 ^ ys.length + colVal ys := by
      show List.foldl _ (0 * 26 + (y.toNat - 65 + 1)) ys = _
      exact ih _
    simp only [List.foldl_cons, List.length_cons, h1]
    rw [ih (a * 26 + (y.toNat - 65 + 1))]
    ring

theorem colVal_concat (xs : List Char) (c : Char) :
    colVal (xs ++ [c]) = colVal xs * 26 + (c.toNat - 65 + 1) := by
  rw [colVal, List.foldl_append, ← colVal, colVal_from]
  simp [colVal]

theorem colVal_colLetterGo (n : Nat) : colVal (colLetterGo n n []) = n := by
  induction n using Nat.strong_induction_on with
  | _ n ih =>
    match n with
    | 0 => decide
    | m + 1 =>
      rw [colLetterGo, colLetterGo_append]
      have hlt : m / 26 < m + 1 := by omega
      rw [colLetterGo_fuel m (m / 26) (m / 26) (by omega) (le_refl _)]
      rw [colVal_concat, ih _ hlt]
      have hb := colLetter_char_bounds m
      have hm : m % 26 < 26 := Nat.mod_lt _ (by decide)
      rw [char_toNat_ofNat (by omega)]
      omega

theorem pyUpper_of_upper {c : Char} (h1 : 65 ≤ c.toNat) (h2 : c.toNat ≤ 90) :
    pyUpper c = c := by
  rw [pyUpper, Char.toUpper]
  have hn : ¬ (c.toNat ≥ 97 ∧ c.toNat ≤ 122) := by omega
  rw [if_neg hn]

theorem pyUpper_digit {c : Char} (h : c.isDigit = true) : pyUpper c = c := by
  obtain ⟨h1, h2⟩ := digit_bounds h
  rw [pyUpper, Char.toUpper]
  have hn : ¬ (c.toNat ≥ 97 ∧ c.toNat ≤ 122) := by
    rw [Char.toNat]
    omega
  rw [if_neg hn]

theorem upper_not_digit {c : Char} (h1 : 65 ≤ c.toNat) (h2 : c.toNat ≤ 90) :
    c.isDigit = false := by
  rw [Char.toNat] at h1
  cases hd : c.isDigit with
  | false => rfl
  | true =>
    obtain ⟨hb1, hb2⟩ := digit_bounds hd
    exfalso
    omega

theorem digit_not_upperAZ {c : Char} (h : c.isDigit = true) : isUpperAZ c = false := by
  obtain ⟨h1, h2⟩ := digit_bounds h
  rw [isUpperAZ]
  simp [Char.toNat]
  omega

theorem upperAZ_isAsciiAlpha {c : Char} (h : isUpperAZ c = true) : isAsciiAlpha c = true := by
  rw [isUpperAZ] at h
  rw [isAsciiAlpha]
  simp at h ⊢
  omega

/-- Helper: `column_letter_to_index` inverts the letter loop. -/
theorem column_letter_to_index_colLetterGo (n : Nat) (hn : 1 ≤ n) :
    column_letter_to_index (colLetterGo n n []) = .ok n := by
  have hall := colLetterGo_all_upper n
  have hne : colLetterGo n n [] ≠ [] := by
    match n, hn with
    | m + 1, _ =>
      rw [colLetterGo, colLetterGo_append]
      simp
  rw [column_letter_to_index]
  rw [if_neg]
  · congr 1
    have hfold : ∀ cs : List Char, cs.all isUpperAZ = true →
        cs.foldl (fun r c => r * 26 + ((pyUpper c).toNat - 65 + 1)) 0 = colVal cs := by
      intro cs hcs
      rw [colVal]
      induction cs using List.reverseRecOn with
      | nil => simp
      | append_singleton xs x ihx =>
        simp only [List.all_append, Bool.and_eq_true, List.all_cons, Bool.and_true,
          List.all_nil] at hcs
        rw [List.foldl_append, List.foldl_append, ihx hcs.1]
        simp only [List.foldl_cons, List.foldl_nil]
        have hx : isUpperAZ x = true := by
          have := hcs.2
          simpa using this
        rw [isUpperAZ] at hx
        simp at hx
        rw [pyUpper_of_upper hx.1 hx.2]
    rw [hfold _ hall, colVal_colLetterGo]
  · rw [not_or]
    constructor
    · simpa using hne
    · simp only [not_not]
      rw [List.all_eq_true] at hall ⊢
      intro c hc
      exact upperAZ_isAsciiAlpha (hall c hc)

theorem map_id_of_all (f : Char → Char) (cs : List Char) (h : ∀ c ∈ cs, f c = c) :
    cs.map f = cs := by
  induction cs with
  | nil => rfl
  | cons x xs ih =>
    simp only [List.map_cons]
    rw [h x (by simp), ih (fun c hc => h c (by simp [hc]))]

theorem colLetterGo_ne_nil (n : Nat) (hn : 1 ≤ n) : colLetterGo n n [] ≠ [] := by
  match n, hn with
  | m + 1, _ =>
    rw [colLetterGo, colLetterGo_append]
    simp

/-- C8 supporting lemma: reading back a written coordinate string recovers the
pair. -/
theorem coordinate_to_tuple_of_written (row col : Nat) (hr : 1 ≤ row) (hc : 1 ≤ col) :
    coordinate_to_tuple (colLetterGo col col [] ++ natStr row) = .ok (row, col) := by
  set letters := colLetterGo col col [] with hlet
  set digits := natStr row with hdig
  have hallL : letters.all isUpperAZ = true := colLetterGo_all_upper col
  have hallD : digits.all Char.isDigit = true := natStr_all_digits row
  have hneL : letters ≠ [] := colLetterGo_ne_nil col hc
  have hneD : digits ≠ [] := natStr_ne_nil row
  have hmap : (letters ++ digits).map pyUpper = letters ++ digits := by
    apply map_id_of_all
    intro c hcmem
    rcases List.mem_append.mp hcmem with hm | hm
    · rw [List.all_eq_true] at hallL
      have := hallL c hm
      rw [isUpperAZ] at this
      simp at this
      exact pyUpper_of_upper this.1 this.2
    · rw [List.all_eq_true] at hallD
      exact pyUpper_digit (hallD c hm)
  obtain ⟨d, ds, hds, hdd⟩ : ∃ d ds, digits = d :: ds ∧ d.isDigit = true := by
    rw [hdig]; exact natStr_head_digit row
  have hdu : isUpperAZ d = false := digit_not_upperAZ hdd
  have htake : (letters ++ digits).takeWhile isUpperAZ = letters := by
    rw [takeWhile_all_append _ hallL, hds]
    simp [List.takeWhile_cons, hdu]
  have hdrop : (letters ++ digits).dropWhile isUpperAZ = digits := by
    rw [dropWhile_all_append _ hallL, hds]
    simp [List.dropWhile_cons, hdu]
  rw [coordinate_to_tuple]
  simp only [hmap, htake, hdrop]
  rw [if_neg]
  · rw [column_letter_to_index_colLetterGo col hc]
    rw [hdig, digitsVal_natStr]
    show (if row < 1 then (Except.error "Row number must be >= 1" : Except String (Nat × Nat))
      else Except.ok (row, col)) = Except.ok (row, col)
    rw [if_neg (by omega)]
  · rw [not_or, not_or]
    refine ⟨hneL, hneD, ?_⟩
    simp [hallD]

/-- C8: for every row ≥ 1 and column ≥ 1 the (row, column) pair converts to a
reference string and back to the same pair, and the anchors hold exactly:
(1,1) maps to "A1" and "AA10" maps to (10, 27). -/
theorem C8_coordinate_roundtrip :
    (∀ row col : Nat, 1 ≤ row → 1 ≤ col →
      ∃ s, tuple_to_coordinate row col = .ok s
        ∧ coordinate_to_tuple s = .ok (row, col))
    ∧ tuple_to_coordinate 1 1 = .ok ['A', '1']
    ∧ coordinate_to_tuple ['A', 'A', '1', '0'] = .ok (10, 27) := by
  refine ⟨?_, by rfl, by rfl⟩
  intro row col hr hc
  refine ⟨colLetterGo col col [] ++ natStr row, ?_, ?_⟩
  · rw [tuple_to_coordinate, if_neg (by omega), column_index_to_letter, if_neg (by omega)]
  · exact coordinate_to_tuple_of_written row col hr hc

/-- Witness for C8 at the concrete pair (10, 27). -/
theorem C8_coordinate_roundtrip_witness :
    ∃ s, tuple_to_coordinate 10 27 = .ok s ∧ coordinate_to_tuple s = .ok (10, 27) :=
  C8_coordinate_roundtrip.1 10 27 (by decide) (by decide)

/-! ## Style deduplication — src/aspose/cells/io/xlsx/writer.py (StyleManager)

The font table: `get_font_id` builds a normalized font record, keys it with
`_font_key`, and deduplicates through `font_map`.  Python dicts keyed by
strings are modelled as ordered association lists with unique keys (only
ever extended under a `key not in map` guard, exactly as the source does).
Font sizes are modelled as `Nat` (the defaults in play are integers). -/

/-- Association-list lookup modelling Python `dict[key]` / `key in dict`. -/
def alGet {α : Type} (k : String) : List (String × α) → Option α
  | [] => none
  | (k', v) :: rest => if k' = k then some v else alGet k rest

theorem alGet_append {α : Type} (k : String) (xs ys : List (String × α)) :
    alGet k (xs ++ ys)
      = match alGet k xs with
        | some v => some v
        | none => alGet k ys := by
  induction xs with
  | nil => simp [alGet]
  | cons p rest ih =>
    match p with
    | (k', v) =>
      by_cases h : k' = k
      · simp [alGet, h]
      · simp [alGet, h, ih]

/-- Python `str(bool)`. -/
def pyBoolStr (b : Bool) : String := if b then "True" else "False"

/-- Python `str.upper()` on a whole string (ASCII range). -/
def pyUpperS (s : String) : String := String.mk (s.data.map pyUpper)

/-- `XlsxConstants.COLOR_MAP` (io/xlsx/constants.py). -/
def COLOR_MAP : List (String × String) :=
  [("black", "000000"), ("white", "FFFFFF"), ("red", "FF0000"), ("green", "00FF00"),
   ("blue", "0000FF"), ("yellow", "FFFF00"), ("cyan", "00FFFF"), ("magenta", "FF00FF"),
   ("darkblue", "000080"), ("darkgreen", "008000"), ("darkred", "800000"),
   ("purple", "800080"), ("orange", "FFA500"), ("gray", "808080"),
   ("lightblue", "ADD8E6"), ("lightgreen", "90EE90"), ("lightyellow", "FFFFE0"),
   ("lightgray", "D3D3D3"), ("lightcyan", "E0FFFF"), ("lightcoral", "F08080"),
   ("lightpink", "FFB6C1"), ("gold", "FFD700"), ("lavender", "E6E6FA")]

/-- `StyleManager._normalize_color`: named colors via the fixed lookup, hex
passes through uppercased with the `#` stripped, bare 6-character strings are
uppercased, anything else defaults to black. -/
def normalize_color (color : String) : String :=
  match alGet color COLOR_MAP with
  | some v => v
  | none =>
    if color.data.head? = some '#' then pyUpperS (String.mk color.data.tail)
    else if color.length = 6 then pyUpperS color
    else "000000"

/-- A font record as `get_font_id` assembles it. -/
structure FontRec where
  name : String
  size : Nat
  bold : Bool
  italic : Bool
  color : String
deriving DecidableEq, Repr

/-- Font properties handed in by the styling object model (style.py `Font`);
every attribute `get_font_id` reads is always present on that class. -/
structure FontProps where
  name : String
  size : Nat
  bold : Bool
  italic : Bool
  color : String
deriving DecidableEq, Repr

/-- `StyleManager._font_key`. -/
def font_key (f : FontRec) : String :=
  f.name ++ "|" ++ toString f.size ++ "|" ++ pyBoolStr f.bold ++ "|"
    ++ pyBoolStr f.italic ++ "|" ++ f.color

/-- The font-table slice of `StyleManager` state. -/
structure StyleManagerFonts where
  fonts : List FontRec
  font_map : List (String × Nat)
deriving Repr

/-- `XlsxConstants.DEFAULT_FONT`. -/
def DEFAULT_FONT : FontRec :=
  { name := "Calibri", size := 11, bold := false, italic := false, color := "000000" }

/-- `StyleManager._init_default_styles` (font part). -/
def initStyleManagerFonts : StyleManagerFonts :=
  { fonts := [DEFAULT_FONT], font_map := [(font_key DEFAULT_FONT, 0)] }

/-- `StyleManager.get_font_id`: normalize, key, dedup, append on miss. -/
def get_font_id (s : StyleManagerFonts) (font_props : FontProps) :
    Nat × StyleManagerFonts :=
  let font : FontRec :=
    { name := font_props.name, size := font_props.size, bold := font_props.bold,
      italic := font_props.italic, color := normalize_color font_props.color }
  let key := font_key font
  match alGet key s.font_map with
  | some id => (id, s)
  | none =>
    (s.fonts.length,
     { fonts := s.fonts ++ [font], font_map := s.font_map ++ [(key, s.fonts.length)] })

/-- Helper: after one `get_font_id` call the assembled key maps to the
returned id. -/
theorem get_font_id_key_present (s : StyleManagerFonts) (p : FontProps) :
    alGet (font_key
        { name := p.name, size := p.size, bold := p.bold, italic := p.italic,
          color := normalize_color p.color })
      (get_font_id s p).2.font_map = some (get_font_id s p).1 := by
  rw [get_font_id]
  set key := font_key
    { name := p.name, size := p.size, bold := p.bold, italic := p.italic,
      color := normalize_color p.color } with hkey
  cases h : alGet key s.font_map with
  | some id => simpa [h] using h
  | none =>
    simp only [h]
    rw [alGet_append, h]
    simp [alGet]

/-- C9: within one save, identical font descriptions return the same id, and
two descriptions differing only in color spelling with the same canonical
6-hex-digit RGB code collapse to one id; `red` and `#FF0000` canonicalize
identically. -/
theorem C9_style_dedup :
    (∀ (s : StyleManagerFonts) (p : FontProps),
      (get_font_id (get_font_id s p).2 p).1 = (get_font_id s p).1)
    ∧ (∀ (s : StyleManagerFonts) (p q : FontProps),
        p.name = q.name → p.size = q.size → p.bold = q.bold → p.italic = q.italic →
        normalize_color p.color = normalize_color q.color →
        (get_font_id (get_font_id s p).2 q).1 = (get_font_id s p).1)
    ∧ normalize_color "red" = "FF0000"
    ∧ normalize_color "#FF0000" = "FF0000"
    ∧ normalize_color "#ff0000" = "FF0000" := by
  have main : ∀ (s : StyleManagerFonts) (p q : FontProps),
      p.name = q.name → p.size = q.size → p.bold = q.bold → p.italic = q.italic →
      normalize_color p.color = normalize_color q.color →
      (get_font_id (get_font_id s p).2 q).1 = (get_font_id s p).1 := by
    intro s p q h1 h2 h3 h4 h5
    have hpresent := get_font_id_key_present s p
    have hsamekey : font_key
        { name := q.name, size := q.size, bold := q.bold, italic := q.italic,
          color := normalize_color q.color }
      = font_key
        { name := p.name, size := p.size, bold := p.bold, italic := p.italic,
          color := normalize_color p.color } := by
      rw [← h1, ← h2, ← h3, ← h4, ← h5]
    conv_lhs => rw [get_font_id]
    rw [hsamekey, hpresent]
  refine ⟨fun s p => main s p p rfl rfl rfl rfl rfl, main, by rfl, by rfl, by rfl⟩

/-- Witness for C9 at the initial style table with concrete font properties. -/
theorem C9_style_dedup_witness :
    (get_font_id
        (get_font_id initStyleManagerFonts
          { name := "Arial", size := 12, bold := true, italic := false,
            color := "red" }).2
        { name := "Arial", size := 12, bold := true, italic := false,
          color := "#FF0000" }).1
      = (get_font_id initStyleManagerFonts
          { name := "Arial", size := 12, bold := true, italic := false,
            color := "red" }).1 :=
  C9_style_dedup.2.1 initStyleManagerFonts
    { name := "Arial", size := 12, bold := true, italic := false, color := "red" }
    { name := "Arial", size := 12, bold := true, italic := false, color := "#FF0000" }
    rfl rfl rfl rfl (by rfl)

/-! ## Formula tokenizer — src/aspose/cells/formula/tokenizer.py

`Tokenizer` turns a formula string into a token list.  Token kind/subtype
constants are the same strings the source uses (`OPERAND`, `OPERATOR`,
`FUNCTION`, `SUBEXPR`, `ARGUMENT`, with subtypes `NUMBER`, `TEXT`, `RANGE`,
`REFERENCE`, `ERROR`, `MATH`, `CONCAT`, `OPEN`, `CLOSE`).  Character scans
carry fuel bounded by the input length; Python's unicode-wide `isalnum` /
`isspace` are modelled on ASCII, which covers every formula this library
builds or that the claims mention. -/

/-- A formula token: `Token(value, type, subtype)`. -/
structure Token where
  value : List Char
  type : String
  subtype : String
deriving DecidableEq, Repr

/-- ASCII model of Python `str.isspace()` for one char. -/
def isPySpace (c : Char) : Bool := c = ' ' ∨ c = '\t' ∨ c = '\n' ∨ c = '\r'

/-- ASCII model of Python `str.isalpha()` for one char. -/
def isPyAlpha (c : Char) : Bool := isAsciiAlpha c

/-- ASCII model of Python `str.isalnum()` for one char. -/
def isPyAlnum (c : Char) : Bool := isAsciiAlpha c || c.isDigit

/-- Quoted-string scan of `_try_string` (doubled quote escapes); returns the
token text and the unconsumed remainder. -/
def scanQuoted : Nat → Char → List Char → List Char → (List Char × List Char)
  | 0, _, cs, acc => (acc, cs)
  | fuel + 1, qc, cs, acc =>
    match cs with
    | [] => (acc, [])
    | c :: rest =>
      if c = qc then
        match rest with
        | c2 :: rest2 =>
          if c2 = qc then scanQuoted fuel qc rest2 (acc ++ [qc]) else (acc, rest)
        | [] => (acc, [])
      else scanQuoted fuel qc rest (acc ++ [c])

/-- `_try_string`. -/
def tryString (cs : List Char) : Option (Token × List Char) :=
  match cs with
  | [] => none
  | c :: rest =>
    if c = '"' ∨ c = '\'' then
      let (value, rest2) := scanQuoted rest.length c rest []
      some ({ value := value, type := "OPERAND", subtype := "TEXT" }, rest2)
    else none

/-- Last-collected-char-is-a-digit test inside `_try_number`'s scan. -/
def lastIsDigit (value : List Char) : Bool :=
  match value.getLast? with
  | some d => d.isDigit
  | none => false

/-- Digit/point/exponent scan of `_try_number`. -/
def numScan : Nat → List Char → List Char → (List Char × List Char)
  | 0, cs, value => (value, cs)
  | fuel + 1, cs, value =>
    match cs with
    | [] => (value, [])
    | c :: rest =>
      if c.isDigit ∨ c = '.' then numScan fuel rest (value ++ [c])
      else if (c = 'E' ∨ c = 'e') ∧ value ≠ [] ∧ lastIsDigit value then
        match rest with
        | s :: rest2 =>
          if s = '+' ∨ s = '-' then numScan fuel rest2 (value ++ [c, s])
          else numScan fuel rest (value ++ [c])
        | [] => numScan fuel rest (value ++ [c])
      else (value, c :: rest)

/-- Exponent tail of `NUMBER_PATTERN`: `[+-]?\\d+`. -/
def expDigitsPat (cs : List Char) : Bool :=
  let core := match cs with
    | c :: rest => if c = '+' ∨ c = '-' then rest else cs
    | [] => []
  core ≠ [] ∧ core.all Char.isDigit

/-- Optional `([Ee][+-]?\\d+)?$` tail of `NUMBER_PATTERN`. -/
def expTailPat (cs : List Char) : Bool :=
  match cs with
  | [] => true
  | e :: rest => (e = 'E' ∨ e = 'e') ∧ expDigitsPat rest

/-- Anchored `NUMBER_PATTERN`
`^-?\\d+(\\.\\d*)?([Ee][+-]?\\d+)?$|^-?\\d*\\.\\d+([Ee][+-]?\\d+)?$`. -/
def numberPat (cs : List Char) : Bool :=
  let body := match cs with
    | c :: rest => if c = '-' then rest else cs
    | [] => []
  let ds1 := body.takeWhile Char.isDigit
  let rest1 := body.dropWhile Char.isDigit
  match rest1 with
  | [] => ds1 ≠ []
  | c :: rest2 =>
    if c = '.' then
      let ds2 := rest2.takeWhile Char.isDigit
      let rest3 := rest2.dropWhile Char.isDigit
      (ds1 ≠ [] ∨ ds2 ≠ []) ∧ expTailPat rest3
    else (ds1 ≠ []) ∧ expTailPat (c :: rest2)

/-- The `can_be_negative` context test of `_try_number` (tokenizer.py lines
150-153): start of formula, or the previous token is an operator, a
subexpression delimiter, or an argument separator. -/
def canBeNegative (tokens : List Token) : Bool :=
  decide (tokens = []) ||
    (match tokens.getLast? with
     | some t =>
       decide (t.type = "OPERATOR") || decide (t.type = "SUBEXPR")
         || decide (t.type = "ARGUMENT")
     | none => false)

/-- `_try_number`: optional leading minus in negative contexts, scan, check
against `NUMBER_PATTERN`; on failure the position is reset (`none`). -/
def tryNumber (tokens : List Token) (cs : List Char) : Option (Token × List Char) :=
  let seeded : Option (List Char × List Char) :=
    match cs with
    | '-' :: rest => if canBeNegative tokens then some (['-'], rest) else none
    | _ => some ([], cs)
  match seeded with
  | none => none
  | some (value0, cs0) =>
    let (value, rest) := numScan cs0.length cs0 value0
    if value ≠ [] ∧ numberPat value then
      some ({ value := value, type := "OPERAND", subtype := "NUMBER" }, rest)
    else none

/-- `_try_operator` (single- and two-character operators). -/
def tryOperator (cs : List Char) : Option (Token × List Char) :=
  match cs with
  | [] => none
  | c :: rest =>
    let mk (v : List Char) (sub : String) (r : List Char) :=
      some ({ value := v, type := "OPERATOR", subtype := sub }, r)
    if c = '<' then
      match rest with
      | '>' :: rest2 => mk ['<', '>'] "MATH" rest2
      | '=' :: rest2 => mk ['<', '='] "MATH" rest2
      | _ => mk ['<'] "MATH" rest
    else if c = '>' then
      match rest with
      | '=' :: rest2 => mk ['>', '='] "MATH" rest2
      | _ => mk ['>'] "MATH" rest
    else if c = '&' then mk ['&'] "CONCAT" rest
    else if c = '+' ∨ c = '-' ∨ c = '*' ∨ c = '/' ∨ c = '^' ∨ c = '=' ∨ c = '%' then
      mk [c] "MATH" rest
    else none

/-- `FUNCTION_PATTERN` `^[A-Z_][A-Z0-9_.]*$` (applied to the upper-cased
name). -/
def functionNamePat (cs : List Char) : Bool :=
  match cs with
  | [] => false
  | c :: rest =>
    (isUpperAZ c ∨ c = '_')
      ∧ rest.all (fun d => isUpperAZ d || d.isDigit || d = '_' || d = '.')

/-- `_try_function`: identifier chars, then (skipping whitespace) a literal
`(` must follow; the name token is emitted upper-cased and the `(` is left
unconsumed. -/
def tryFunction (cs : List Char) : Option (Token × List Char) :=
  match cs with
  | [] => none
  | c :: _ =>
    if isPyAlpha c ∨ c = '_' then
      let value := cs.takeWhile (fun d => isPyAlnum d || d = '_' || d = '.')
      let rest := cs.dropWhile (fun d => isPyAlnum d || d = '_' || d = '.')
      let afterWs := rest.dropWhile isPySpace
      match afterWs with
      | '(' :: _ =>
        if functionNamePat (value.map pyUpper) then
          some ({ value := value.map pyUpper, type := "FUNCTION", subtype := "" }, afterWs)
        else none
      | _ => none
    else none

/-- `CELL_REF_PATTERN` `^(\\$?)([A-Z]+)(\\$?)(\\d+)$`. -/
def cellRefPat (cs : List Char) : Bool :=
  let body := match cs with
    | '$' :: rest => rest
    | _ => cs
  let letters := body.takeWhile isUpperAZ
  let rest1 := body.dropWhile isUpperAZ
  let body2 := match rest1 with
    | '$' :: rest => rest
    | _ => rest1
  letters ≠ [] ∧ body2 ≠ [] ∧ body2.all Char.isDigit

/-- One side of `RANGE_PATTERN`: `\\$?[A-Z]+\\$?\\d+`. -/
def rangeSidePat (cs : List Char) : Bool := cellRefPat cs

/-- `RANGE_PATTERN` `^(\\$?[A-Z]+\\$?\\d+):(\\$?[A-Z]+\\$?\\d+)$`. -/
def rangePat (cs : List Char) : Bool :=
  let side1 := cs.takeWhile (fun c => ¬ (c = ':'))
  let rest := cs.dropWhile (fun c => ¬ (c = ':'))
  match rest with
  | ':' :: side2 => rangeSidePat side1 ∧ rangeSidePat side2 ∧ ¬ (side2.contains ':')
  | _ => false

/-- `_try_reference`: collect alnum/`$`/`:` chars, then classify as range or
single reference (upper-cased), else reset. -/
def tryReference (cs : List Char) : Option (Token × List Char) :=
  let value := cs.takeWhile (fun c => isPyAlnum c || c = '$' || c = ':')
  let rest := cs.dropWhile (fun c => isPyAlnum c || c = '$' || c = ':')
  if value = [] then none
  else
    let up := value.map pyUpper
    if value.contains ':' ∧ rangePat up then
      some ({ value := up, type := "OPERAND", subtype := "RANGE" }, rest)
    else if cellRefPat up then
      some ({ value := up, type := "OPERAND", subtype := "REFERENCE" }, rest)
    else none

/-- `ERROR_CODES` (tokenizer.py line 56). -/
def ERROR_CODES : List (List Char) :=
  [['#', 'N', 'U', 'L', 'L', '!'],
   ['#', 'D', 'I', 'V', '/', '0', '!'],
   ['#', 'V', 'A', 'L', 'U', 'E', '!'],
   ['#', 'R', 'E', 'F', '!'],
   ['#', 'N', 'A', 'M', 'E', '?'],
   ['#', 'N', 'U', 'M', '!'],
   ['#', 'N', '/', 'A']]

/-- `_try_error`: leading `#`, collect alnum/`#!/?` chars, exact-match the
fixed vocabulary. -/
def tryError (cs : List Char) : Option (Token × List Char) :=
  match cs with
  | [] => none
  | c :: _ =>
    if ¬ (c = '#') then none
    else
      let value := cs.takeWhile (fun d => isPyAlnum d || d = '#' || d = '!' || d = '/' || d = '?')
      let rest := cs.dropWhile (fun d => isPyAlnum d || d = '#' || d = '!' || d = '/' || d = '?')
      if value ∈ ERROR_CODES then
        some ({ value := value, type := "OPERAND", subtype := "ERROR" }, rest)
      else none

/-- `_try_parenthesis`. -/
def tryParen (cs : List Char) : Option (Token × List Char) :=
  match cs with
  | '(' :: rest => some ({ value := ['('], type := "SUBEXPR", subtype := "OPEN" }, rest)
  | ')' :: rest => some ({ value := [')'], type := "SUBEXPR", subtype := "CLOSE" }, rest)
  | _ => none

/-- `_try_separator` (`,` or `;`). -/
def trySeparator (cs : List Char) : Option (Token × List Char) :=
  match cs with
  | c :: rest =>
    if c = ',' ∨ c = ';' then
      some ({ value := [c], type := "ARGUMENT", subtype := "" }, rest)
    else none
  | [] => none

/-- `_consume_text`: unrecognized run up to whitespace or a delimiter. -/
def consumeText (cs : List Char) : Option (Token × List Char) :=
  let stop (c : Char) : Bool :=
    isPySpace c || c = '(' || c = ')' || c = '+' || c = '-' || c = '*' || c = '/'
      || c = '^' || c = '&' || c = '=' || c = '<' || c = '>' || c = '%'
      || c = ',' || c = ';'
  let value := cs.takeWhile (fun c => ¬ stop c)
  let rest := cs.dropWhile (fun c => ¬ stop c)
  if value = [] then none
  else some ({ value := value, type := "OPERAND", subtype := "TEXT" }, rest)

/-- One iteration of `_tokenize`'s dispatch chain (source order: string,
number, operator, function, reference, error, parenthesis, separator, text). -/
def tokenizeStep (tokens : List Token) (cs : List Char) : Option (Token × List Char) :=
  match tryString cs with
  | some r => some r
  | none =>
  match tryNumber tokens cs with
  | some r => some r
  | none =>
  match tryOperator cs with
  | some r => some r
  | none =>
  match tryFunction cs with
  | some r => some r
  | none =>
  match tryReference cs with
  | some r => some r
  | none =>
  match tryError cs with
  | some r => some r
  | none =>
  match tryParen cs with
  | some r => some r
  | none =>
  match trySeparator cs with
  | some r => some r
  | none => consumeText cs

/-- The `_tokenize` loop (fuel ≥ input length suffices; a zero-progress
iteration, which in CPython would loop forever and is unreachable from the
dispatch chain, stops the model). -/
def tokenizeGo : Nat → List Token → List Char → List Token
  | 0, tokens, _ => tokens
  | fuel + 1, tokens, cs =>
    let cs1 := cs.dropWhile isPySpace
    match cs1 with
    | [] => tokens
    | _ =>
      match tokenizeStep tokens cs1 with
      | some (t, rest) => tokenizeGo fuel (tokens ++ [t]) rest
      | none => tokens

/-- `Tokenizer(formula)`: strip, skip a leading `=`, loop. -/
def tokenize (formula : List Char) : List Token :=
  let f := (formula.dropWhile isPySpace).reverse.dropWhile isPySpace |>.reverse
  let f2 := match f with
    | '=' :: rest => rest
    | _ => f
  tokenizeGo (f2.length + 1) [] f2

/-! ## Values, errors and the function library — src/aspose/cells/formula/functions.py

Python runtime values reaching the evaluator are ints, floats, strings,
bools and (for ranges) lists.  Floats are idealised as exact rationals.
`ExcelError` subclasses become the `XErr` variants; raising becomes the
`.exn` outcome. -/

/-- Python value universe of the formula engine. -/
inductive PyVal where
  | int (n : Int)
  | float (q : ℚ)
  | str (s : String)
  | bool (b : Bool)
  | list (l : List PyVal)

/-- Excel error taxonomy (`DivisionByZeroError`, `ValueErrorExcel`,
`NumError`, `CircularReferenceError`). -/
inductive XErr where
  | div0
  | value
  | num
  | circular
deriving DecidableEq, Repr

/-- Display string of each error (`__str__` of the exception classes). -/
def errStr : XErr → String
  | .div0 => "#DIV/0!"
  | .value => "#VALUE!"
  | .num => "#NUM!"
  | .circular => "#CIRCULAR!"

mutual

def pyValBEq : PyVal → PyVal → Bool
  | .int a, .int b => a = b
  | .float a, .float b => a = b
  | .str a, .str b => a = b
  | .bool a, .bool b => a = b
  | .list a, .list b => pyValListBEq a b
  | _, _ => false

def pyValListBEq : List PyVal → List PyVal → Bool
  | [], [] => true
  | a :: as', b :: bs' => pyValBEq a b && pyValListBEq as' bs'
  | _, _ => false

end

instance : BEq PyVal := ⟨pyValBEq⟩

/-- Numeric view (Python treats `bool` as an `int` subclass). -/
def numQ : PyVal → Option ℚ
  | .int n => some (n : ℚ)
  | .float q => some q
  | .bool b => some (if b then 1 else 0)
  | _ => none

/-- Python `isinstance(v, (int, float, Decimal))` — true for bools too. -/
def isNumLike : PyVal → Bool
  | .int _ => true
  | .float _ => true
  | .bool _ => true
  | _ => false

/-- `to_number` (functions.py): numeric kinds pass through unchanged (the
dedicated `bool` branch is dead code because `bool` is an `int` subclass);
strings parse as `float` when they contain a point, else as `int`; anything
else raises `#VALUE!`. -/
def to_number (v : PyVal) : Except XErr PyVal :=
  match v with
  | .int n => .ok (.int n)
  | .float q => .ok (.float q)
  | .bool b => .ok (.bool b)
  | .str s =>
    if '.' ∈ s.data then
      match pyParseFloat s.data with
      | some q => .ok (.float q)
      | none => .error .value
    else
      match pyParseInt s.data with
      | some n => .ok (.int n)
      | none => .error .value
  | .list _ => .error .value

/-- Python `str.lower()` on one ASCII character. -/
def pyLower (c : Char) : Char := Char.toLower c

/-- Python `str.lower()` on a whole string (ASCII range). -/
def pyLowerS (s : String) : String := String.mk (s.data.map pyLower)

mutual

/-- Python `str(v)` for the value universe (`repr` for list elements). -/
def pyStr : PyVal → String
  | .int n => String.mk (intStr n)
  | .float q => String.mk (pyFloatStr q)
  | .bool b => pyBoolStr b
  | .str s => s
  | .list l => "[" ++ pyReprList l ++ "]"

def pyRepr : PyVal → String
  | .str s => "'" ++ s ++ "'"
  | .int n => String.mk (intStr n)
  | .float q => String.mk (pyFloatStr q)
  | .bool b => pyBoolStr b
  | .list l => "[" ++ pyReprList l ++ "]"

def pyReprList : List PyVal → String
  | [] => ""
  | [v] => pyRepr v
  | v :: rest => pyRepr v ++ ", " ++ pyReprList rest

end

/-- `to_text` (functions.py): bools render as TRUE/FALSE, the rest via
`str` (`None` does not arise in the modelled value universe). -/
def to_text (v : PyVal) : String :=
  match v with
  | .bool b => if b then "TRUE" else "FALSE"
  | _ => pyStr v

/-- `to_boolean` (functions.py). -/
def to_boolean (v : PyVal) : Except XErr Bool :=
  match v with
  | .bool b => .ok b
  | .int n => .ok (decide (¬ n = 0))
  | .float q => .ok (decide (¬ q = 0))
  | .str s =>
    if pyUpperS s = "TRUE" then .ok true
    else if pyUpperS s = "FALSE" then .ok false
    else .error .value
  | .list _ => .error .value

/-- Python `a + b` on numeric values: int-plus-int stays int, anything with
a float is a float, bools count as 0/1. -/
def addNum (a b : PyVal) : PyVal :=
  match a, b with
  | .int x, .int y => .int (x + y)
  | .bool x, .int y => .int ((if x then 1 else 0) + y)
  | .int x, .bool y => .int (x + (if y then 1 else 0))
  | .bool x, .bool y => .int ((if x then 1 else 0) + (if y then 1 else 0))
  | a', b' => .float (ratAdd ((numQ a').getD 0) ((numQ b').getD 0))

/-- The numeric-gathering loop shared verbatim by `func_average`,
`func_max` and `func_min`: list arguments contribute their directly numeric
elements (no recursion, numeric-looking strings inside lists are skipped),
scalar arguments go through `to_number` and are skipped on failure. -/
def gatherNumeric : List PyVal → List PyVal
  | [] => []
  | a :: rest =>
    match a with
    | .list l => l.filter isNumLike ++ gatherNumeric rest
    | _ =>
      match to_number a with
      | .ok v => v :: gatherNumeric rest
      | .error _ => gatherNumeric rest

/-- `func_sum` (recursive flattening, non-numeric values skipped); `fuel`
bounds the nesting depth of list arguments. -/
def func_sum : Nat → List PyVal → PyVal
  | 0, _ => .int 0
  | _ + 1, [] => .int 0
  | fuel + 1, a :: rest =>
    let tail := func_sum (fuel + 1) rest
    match a with
    | .list l => addNum (func_sum fuel l) tail
    | _ =>
      match to_number a with
      | .ok v => addNum v tail
      | .error _ => tail

/-- `func_count` (recursive count of numeric values). -/
def func_count : Nat → List PyVal → Nat
  | 0, _ => 0
  | _ + 1, [] => 0
  | fuel + 1, a :: rest =>
    let tail := func_count (fuel + 1) rest
    match a with
    | .list l => func_count fuel l + tail
    | _ =>
      match to_number a with
      | .ok _ => 1 + tail
      | .error _ => tail

/-- `func_counta` (recursive count of non-empty values). -/
def func_counta : Nat → List PyVal → Nat
  | 0, _ => 0
  | _ + 1, [] => 0
  | fuel + 1, a :: rest =>
    let tail := func_counta (fuel + 1) rest
    match a with
    | .list l => func_counta fuel l + tail
    | _ => (if pyValBEq a (.str "") then 0 else 1) + tail

/-- `func_average`: gather, error `#DIV/0!` on an empty gather, else the
true-division mean (a float). -/
def func_average (args : List PyVal) : Except XErr PyVal :=
  match gatherNumeric args with
  | [] => .error .div0
  | values@(_ :: _) =>
    .ok (.float (ratDiv (values.foldl (fun acc v => ratAdd acc ((numQ v).getD 0)) 0)
      (values.length : ℚ)))

/-- Python `max` over the gathered numerics (first maximal element wins). -/
def pyMaxOf (v : PyVal) (rest : List PyVal) : PyVal :=
  rest.foldl (fun best x =>
    if (numQ x).getD 0 > (numQ best).getD 0 then x else best) v

/-- Python `min` over the gathered numerics (first minimal element wins). -/
def pyMinOf (v : PyVal) (rest : List PyVal) : PyVal :=
  rest.foldl (fun best x =>
    if (numQ x).getD 0 < (numQ best).getD 0 then x else best) v

/-- `func_max`: gather; an empty gather returns the int 0, not an error. -/
def func_max (args : List PyVal) : Except XErr PyVal :=
  match gatherNumeric args with
  | [] => .ok (.int 0)
  | v :: rest => .ok (pyMaxOf v rest)

/-- `func_min`: gather; an empty gather returns the int 0, not an error. -/
def func_min (args : List PyVal) : Except XErr PyVal :=
  match gatherNumeric args with
  | [] => .ok (.int 0)
  | v :: rest => .ok (pyMinOf v rest)

/-- `func_abs` (absolute value preserving int/float kind; bools become
ints, as `abs(True) == 1`). -/
def func_abs (args : List PyVal) : Except XErr PyVal :=
  match args with
  | [v] =>
    match to_number v with
    | .ok (.int n) => .ok (.int n.natAbs)
    | .ok (.float q) => .ok (.float |q|)
    | .ok (.bool b) => .ok (.int (if b then 1 else 0))
    | .ok other => .ok other
    | .error e => .error e
  | _ => .error .value

/-- `func_if`: a `#VALUE!` from coercing the condition selects the false
branch (the source catches `ValueErrorExcel` and returns `false_value`). -/
def func_if (args : List PyVal) : Except XErr PyVal :=
  match args with
  | [c, t] =>
    match to_boolean c with
    | .ok true => .ok t
    | .ok false => .ok (.bool false)
    | .error _ => .ok (.bool false)
  | [c, t, f] =>
    match to_boolean c with
    | .ok true => .ok t
    | .ok false => .ok f
    | .error _ => .ok f
  | _ => .error .value

/-- `func_and`. -/
def func_and : List PyVal → Except XErr PyVal
  | [] => .ok (.bool true)
  | a :: rest =>
    match to_boolean a with
    | .ok true => func_and rest
    | .ok false => .ok (.bool false)
    | .error e => .error e

/-- `func_or`. -/
def func_or : List PyVal → Except XErr PyVal
  | [] => .ok (.bool false)
  | a :: rest =>
    match to_boolean a with
    | .ok true => .ok (.bool true)
    | .ok false => func_or rest
    | .error e => .error e

/-- `func_not`. -/
def func_not (args : List PyVal) : Except XErr PyVal :=
  match args with
  | [v] => (to_boolean v).map (fun b => .bool (!b))
  | _ => .error .value

/-- `func_concatenate`. -/
def func_concatenate (args : List PyVal) : Except XErr PyVal :=
  .ok (.str (args.foldl (fun acc v => acc ++ to_text v) ""))

/-- `func_len`. -/
def func_len (args : List PyVal) : Except XErr PyVal :=
  match args with
  | [v] => .ok (.int (to_text v).length)
  | _ => .error .value

/-- Python `int(x)` truncation of a float toward zero. -/
def pyTrunc (q : ℚ) : Int := q.num.tdiv q.den

/-- Python slice `s[:n]` (negative stops count from the end). -/
def pySliceTo (s : String) (n : Int) : String :=
  let len : Int := s.length
  let stop : Int := if n < 0 then max 0 (len + n) else min n len
  String.mk (s.data.take stop.toNat)

/-- Python slice `s[a:b]` with non-negative effective bounds. -/
def pySliceAB (s : String) (a b : Int) : String :=
  let len : Int := s.length
  let lo : Int := if a < 0 then max 0 (len + a) else min a len
  let hi : Int := if b < 0 then max 0 (len + b) else min b len
  String.mk ((s.data.take hi.toNat).drop lo.toNat)

/-- Coerce an argument to the truncated int the text functions use. -/
def argInt (v : PyVal) : Except XErr Int :=
  match to_number v with
  | .ok w =>
    match numQ w with
    | some q => .ok (pyTrunc q)
    | none => .error .value
  | .error e => .error e

/-- `func_left` (default count 1). -/
def func_left (args : List PyVal) : Except XErr PyVal :=
  match args with
  | [t] => .ok (.str (pySliceTo (to_text t) 1))
  | [t, n] => (argInt n).map (fun k => .str (pySliceTo (to_text t) k))
  | _ => .error .value

/-- `func_right` (default count 1; non-positive counts give ""). -/
def func_right (args : List PyVal) : Except XErr PyVal :=
  let core (t : PyVal) (k : Int) : PyVal :=
    let s := to_text t
    if k > 0 then .str (String.mk (s.data.drop (s.length - k.toNat))) else .str ""
  match args with
  | [t] => .ok (core t 1)
  | [t, n] => (argInt n).map (core t)
  | _ => .error .value

/-- `func_mid` (`text[start-1 : start-1+num]`, Python slice semantics). -/
def func_mid (args : List PyVal) : Except XErr PyVal :=
  match args with
  | [t, sp, n] => do
    let a ← argInt sp
    let k ← argInt n
    pure (.str (pySliceAB (to_text t) (a - 1) (a - 1 + k)))
  | _ => .error .value

/-- `func_upper`. -/
def func_upper (args : List PyVal) : Except XErr PyVal :=
  match args with
  | [v] => .ok (.str (pyUpperS (to_text v)))
  | _ => .error .value

/-- `func_lower`. -/
def func_lower (args : List PyVal) : Except XErr PyVal :=
  match args with
  | [v] => .ok (.str (pyLowerS (to_text v)))
  | _ => .error .value

/-- Whitespace-run split of Python `str.split()`. -/
def pySplitWs (cs : List Char) : List (List Char) :=
  let rec go : List Char → List Char → List (List Char)
    | [], cur => if cur ≠ [] then [cur.reverse] else []
    | c :: rest, cur =>
      if isPySpace c then
        if cur ≠ [] then cur.reverse :: go rest [] else go rest []
      else go rest (c :: cur)
  go cs []

/-- `func_trim` (`" ".join(text.split())`). -/
def func_trim (args : List PyVal) : Except XErr PyVal :=
  match args with
  | [v] =>
    let parts := pySplitWs (to_text v).data
    .ok (.str (String.intercalate " " (parts.map String.mk)))
  | _ => .error .value

/-- `func_true` / `func_false`. -/
def func_true (args : List PyVal) : Except XErr PyVal :=
  match args with
  | [] => .ok (.bool true)
  | _ => .error .value

/-- FALSE builtin. -/
def func_false (args : List PyVal) : Except XErr PyVal :=
  match args with
  | [] => .ok (.bool false)
  | _ => .error .value

/-- Keys of `BUILTIN_FUNCTIONS` (functions.py lines 387-433). -/
def BUILTIN_FUNCTION_NAMES : List String :=
  ["ABS", "SUM", "AVERAGE", "COUNT", "COUNTA", "MAX", "MIN", "ROUND", "POWER",
   "SQRT", "EXP", "LN", "LOG10", "SIN", "COS", "TAN", "PI", "IF", "AND", "OR",
   "NOT", "TRUE", "FALSE", "CONCATENATE", "LEN", "LEFT", "RIGHT", "MID",
   "UPPER", "LOWER", "TRIM", "TODAY", "NOW", "YEAR", "MONTH", "DAY"]

/-- Dispatch to the modelled builtins.  `ROUND`, `POWER`, `SQRT`, `EXP`,
`LN`, `LOG10`, the trigonometric functions and the clock-reading date
functions produce irrational or time-dependent floats outside the rational
model; no claim exercises them, and they answer with a distinguished marker
string so that nothing meaningful can be proved about them by accident. -/
def applyBuiltin (name : String) (args : List PyVal) : Except XErr PyVal :=
  if name = "ABS" then func_abs args
  else if name = "SUM" then .ok (func_sum (args.length + 64) args)
  else if name = "AVERAGE" then func_average args
  else if name = "COUNT" then .ok (.int (func_count (args.length + 64) args))
  else if name = "COUNTA" then .ok (.int (func_counta (args.length + 64) args))
  else if name = "MAX" then func_max args
  else if name = "MIN" then func_min args
  else if name = "IF" then func_if args
  else if name = "AND" then func_and args
  else if name = "OR" then func_or args
  else if name = "NOT" then func_not args
  else if name = "TRUE" then func_true args
  else if name = "FALSE" then func_false args
  else if name = "CONCATENATE" then func_concatenate args
  else if name = "LEN" then func_len args
  else if name = "LEFT" then func_left args
  else if name = "RIGHT" then func_right args
  else if name = "MID" then func_mid args
  else if name = "UPPER" then func_upper args
  else if name = "LOWER" then func_lower args
  else if name = "TRIM" then func_trim args
  else .ok (.str "#UNMODELLED")

/-- `FormulaEvaluator._call_function`: unknown names yield the literal
string `"#NAME?"` as a value; raised `ExcelError`s from a builtin convert to
their display strings (any other exception would render as `"#VALUE!"`,
which coincides with `errStr .value`). -/
def callFunction (name : List Char) (args : List PyVal) : PyVal :=
  if String.mk name ∈ BUILTIN_FUNCTION_NAMES then
    match applyBuiltin (String.mk name) args with
    | .ok v => v
    | .error e => .str (errStr e)
  else .str "#NAME?"

/-! ## Formula evaluator — src/aspose/cells/formula/evaluator.py

`FormulaEvaluator` evaluates token streams with a two-stack shunting-yard
loop; cell references recurse through `evaluate` with the in-progress set
(`_evaluation_stack`) threaded explicitly.  The mutually recursive Python
methods are defunctionalised into one fuel-indexed interpreter `run` over a
request type, one constructor per method, so that everything reduces by
`rfl`; `.out` marks fuel exhaustion (in CPython: unbounded recursion).
Stacks are kept head-on-top (Python appends/pops at the end of its lists,
and reads `output_queue[0]`, here the last element). -/

/-- Python `float(x)` applied to an operand (`TypeError`/`ValueError` on
failure, modelled as `none`). -/
def pyFloatOf : PyVal → Option ℚ
  | .int n => some (n : ℚ)
  | .float q => some q
  | .bool b => some (if b then 1 else 0)
  | .str s => pyParseFloat s.data
  | .list _ => none

/-- Python `==` on the value universe: numbers (bools included) compare by
value, strings and lists structurally, mixed kinds are unequal. -/
def pyEq (a b : PyVal) : Bool :=
  match numQ a, numQ b with
  | some x, some y => x = y
  | _, _ => pyValBEq a b

/-- `FormulaEvaluator._precedence`. -/
def precedence (t : Token) : Nat :=
  if t.value = ['^'] then 4
  else if t.value = ['*'] ∨ t.value = ['/'] then 3
  else if t.value = ['+'] ∨ t.value = ['-'] then 2
  else if t.value = ['&'] then 2
  else if t.value = ['='] ∨ t.value = ['<'] ∨ t.value = ['>']
    ∨ t.value = ['<', '='] ∨ t.value = ['>', '='] ∨ t.value = ['<', '>'] then 1
  else 0

/-- `FormulaEvaluator._apply_operator`.  `^` is modelled for integer
exponents only (a non-integer float exponent produces an irrational float,
outside the rational idealisation; no claim evaluates one). -/
def applyOp (op : List Char) (left right : PyVal) : Except XErr PyVal :=
  if op = ['+'] then
    match pyFloatOf left, pyFloatOf right with
    | some a, some b => .ok (.float (ratAdd a b))
    | _, _ => .error .value
  else if op = ['-'] then
    match pyFloatOf left, pyFloatOf right with
    | some a, some b => .ok (.float (ratSub a b))
    | _, _ => .error .value
  else if op = ['*'] then
    match pyFloatOf left, pyFloatOf right with
    | some a, some b => .ok (.float (ratMul a b))
    | _, _ => .error .value
  else if op = ['/'] then
    match pyFloatOf right with
    | none => .error .value
    | some b =>
      if b = 0 then .error .div0
      else
        match pyFloatOf left with
        | none => .error .value
        | some a => .ok (.float (ratDiv a b))
  else if op = ['^'] then
    match pyFloatOf left, pyFloatOf right with
    | some a, some b =>
      if b.den = 1 then
        if a = 0 ∧ b.num < 0 then .error .div0 else .ok (.float (ratZpow a b.num))
      else .error .value
    | _, _ => .error .value
  else if op = ['&'] then .ok (.str (pyStr left ++ pyStr right))
  else if op = ['='] then .ok (.bool (pyEq left right))
  else if op = ['<'] then
    match pyFloatOf left, pyFloatOf right with
    | some a, some b => .ok (.bool (decide (a < b)))
    | _, _ => .error .value
  else if op = ['>'] then
    match pyFloatOf left, pyFloatOf right with
    | some a, some b => .ok (.bool (decide (a > b)))
    | _, _ => .error .value
  else if op = ['<', '='] then
    match pyFloatOf left, pyFloatOf right with
    | some a, some b => .ok (.bool (decide (a ≤ b)))
    | _, _ => .error .value
  else if op = ['>', '='] then
    match pyFloatOf left, pyFloatOf right with
    | some a, some b => .ok (.bool (decide (a ≥ b)))
    | _, _ => .error .value
  else if op = ['<', '>'] then .ok (.bool (!pyEq left right))
  else .ok (.int 0)

/-- Pop one value off the (reversed) output queue, defaulting to the int 0
(`output_queue.pop() if output_queue else 0`). -/
def popVal : List PyVal → PyVal × List PyVal
  | [] => (.int 0, [])
  | v :: rest => (v, rest)

/-- Pop an operator off the stack and apply it (`right` popped first). -/
def popApply (op : Token) (outq : List PyVal) : Except XErr (List PyVal) := do
  let (right, outq1) := popVal outq
  let (left, outq2) := popVal outq1
  let r ← applyOp op.value left right
  pure (r :: outq2)

/-- The while-loop in the `OPERATOR` branch of `_evaluate_tokens`: pop while
the stack top is an operator of precedence ≥ the incoming one. -/
def drainGE (cur : Token) : List Token → List PyVal → Except XErr (List Token × List PyVal)
  | [], outq => .ok ([], outq)
  | op :: ops, outq =>
    if op.type = "OPERATOR" ∧ precedence op ≥ precedence cur then do
      let outq1 ← popApply op outq
      drainGE cur ops outq1
    else .ok (op :: ops, outq)

/-- The while-loop in the `CLOSE` branch: pop and apply until a `SUBEXPR`
marker (or emptiness), then drop the marker if present. -/
def drainTilOpen : List Token → List PyVal → Except XErr (List Token × List PyVal)
  | [], outq => .ok ([], outq)
  | op :: ops, outq =>
    if ¬ (op.type = "SUBEXPR") then do
      let outq1 ← popApply op outq
      drainTilOpen ops outq1
    else .ok (ops, outq)

/-- The final drain of `_evaluate_tokens`: pop everything, applying the
operator tokens and discarding the rest. -/
def drainAll : List Token → List PyVal → Except XErr (List PyVal)
  | [], outq => .ok outq
  | op :: ops, outq =>
    if op.type = "OPERATOR" then do
      let outq1 ← popApply op outq
      drainAll ops outq1
    else drainAll ops outq

/-- `FormulaEvaluator._find_matching_paren` (index arithmetic; returns the
position of the matching close, scanning from `pos` with open-count
`count`; fuel ≥ token count suffices). -/
def findParenEnd : Nat → List Token → Nat → Nat → Nat
  | 0, _, pos, _ => pos - 1
  | fuel + 1, tokens, pos, count =>
    if pos < tokens.length ∧ 0 < count then
      match tokens.get? pos with
      | some t =>
        let count' :=
          if t.type = "SUBEXPR" ∧ t.subtype = "OPEN" then count + 1
          else if t.type = "SUBEXPR" ∧ t.subtype = "CLOSE" then count - 1
          else count
        findParenEnd fuel tokens (pos + 1) count'
      | none => pos - 1
    else pos - 1

/-- Argument splitting of `_evaluate_function_args`: top-level `ARGUMENT`
tokens separate the parts, nested parens tracked by a depth counter, empty
parts skipped. -/
def splitArgsGo : List Token → Nat → List Token → List (List Token) → List (List Token)
  | [], _, current, acc => if current ≠ [] then acc ++ [current] else acc
  | t :: rest, depth, current, acc =>
    if t.type = "ARGUMENT" ∧ depth = 0 then
      if current ≠ [] then splitArgsGo rest depth [] (acc ++ [current])
      else splitArgsGo rest depth [] acc
    else
      let depth' :=
        if t.type = "SUBEXPR" then
          if t.subtype = "OPEN" then depth + 1
          else if t.subtype = "CLOSE" then depth - 1
          else depth
        else depth
      splitArgsGo rest depth' (current ++ [t]) acc

/-- Argument parts of a function call. -/
def splitArgs (tokens : List Token) : List (List Token) := splitArgsGo tokens 0 [] []

/-- Prefix match of `_get_cell_value`'s reference regex
`(\\$?)([A-Z]+)(\\$?)(\\d+)` (not end-anchored): returns letters and row. -/
def parseCellRef (cs : List Char) : Option (List Char × Nat) :=
  let b1 := match cs with
    | '$' :: r => r
    | _ => cs
  let letters := b1.takeWhile isUpperAZ
  let r1 := b1.dropWhile isUpperAZ
  let b2 := match r1 with
    | '$' :: r => r
    | _ => r1
  let digits := b2.takeWhile Char.isDigit
  if letters = [] ∨ digits = [] then none else some (letters, digitsVal digits)

/-- Column number from letters (`enumerate(reversed(col_letters))` loop). -/
def colNumOf (letters : List Char) : Nat :=
  (letters.reverse.enum).foldl (fun acc p => acc + (p.2.toNat - 65 + 1) * 26 ^ p.1) 0

/-- A cell as the evaluator sees it through `worksheet._cells`. -/
structure EvalCell where
  value : Option PyVal
  formula : Option (List Char)
  dataType : Option String

/-- `Cell.is_formula()`. -/
def EvalCell.isFormula (c : EvalCell) : Bool := c.dataType = some "formula"

/-- The worksheet grid slice the evaluator reads. -/
structure EvalSheet where
  cells : List ((Nat × Nat) × EvalCell)

/-- `worksheet._cells.get((row, col))`. -/
def cellsGet (m : List ((Nat × Nat) × EvalCell)) (k : Nat × Nat) : Option EvalCell :=
  match m with
  | [] => none
  | (k', c) :: rest => if k' = k then some c else cellsGet rest k

/-- `set.add` on the in-progress set (membership-guarded append). -/
def setAdd (a : List Char) (st : List (List Char)) : List (List Char) :=
  if a ∈ st then st else st ++ [a]

/-- `set.discard` on the in-progress set. -/
def setDiscard (a : List Char) (st : List (List Char)) : List (List Char) :=
  st.filter (fun x => ¬ x = a)

/-- Outcome of a fueled evaluation step: fuel exhaustion (in CPython,
unbounded recursion), a raised `ExcelError`, or a value. -/
inductive Ev (α : Type) where
  | out
  | exn (e : XErr)
  | val (v : α)

/-- Requests of the defunctionalised evaluator: one constructor per Python
method (`evaluate`, `_evaluate_tokens`' loop, `_evaluate_operand`,
`_get_cell_value`, `_get_range_values`' per-cell loop, and
`_evaluate_function_args`' per-part loop). -/
inductive Req where
  | evalF (formula : List Char) (addr : Option (List Char))
  | evalTs (tokens : List Token)
  | loop (tokens : List Token) (i : Nat) (outq : List PyVal) (ops : List Token)
  | operand (t : Token)
  | cellVal (ref : List Char)
  | rangeVals (ref : List Char)
  | cellList (coords : List (Nat × Nat))
  | funcArgs (parts : List (List Token))

/-- Responses (one value, a value list, or the two stacks). -/
inductive Resp where
  | one (v : PyVal)
  | many (vs : List PyVal)
  | stks (outq : List PyVal) (ops : List Token)

/-- The evaluator.  Every recursive call decrements the fuel once, so `run`
is structural in `fuel` and computes by `rfl`; `.out` propagates. -/
def run : Nat → Option EvalSheet → Req → List (List Char) → (Ev Resp × List (List Char))
  | 0, _, _, st => (.out, st)
  | fuel + 1, ws, req, st =>
    match req with
    | .evalF formula addr =>
      -- evaluate(): empty input returns "", a leading = is stripped, the
      -- address (when given) is pushed, checked for circularity, and
      -- discarded on every exit path (the try/finally).
      if formula = [] then (.val (.one (.str "")), st)
      else
        let f1 := match formula with
          | '=' :: rest => rest
          | _ => formula
        if f1.dropWhile isPySpace = [] then (.val (.one (.str "")), st)
        else
          match addr with
          | some a =>
            if a ∈ st then (.exn .circular, st)
            else
              let st1 := setAdd a st
              let tokens := tokenize ('=' :: f1)
              if tokens = [] then (.val (.one (.str "")), setDiscard a st1)
              else
                let (r, st2) := run fuel ws (.evalTs tokens) st1
                (r, setDiscard a st2)
          | none =>
            let tokens := tokenize ('=' :: f1)
            if tokens = [] then (.val (.one (.str "")), st)
            else run fuel ws (.evalTs tokens) st
    | .evalTs tokens =>
      -- _evaluate_tokens: run the loop then the final drain; the result is
      -- output_queue[0] (last of the reversed model) or "".
      let (r, st1) := run fuel ws (.loop tokens 0 [] []) st
      match r with
      | .val (.stks outq ops) =>
        (match drainAll ops outq with
         | .ok outq1 => (.val (.one (outq1.getLast?.getD (.str ""))), st1)
         | .error e => (.exn e, st1))
      | .val _ => (.out, st1)
      | .exn e => (.exn e, st1)
      | .out => (.out, st1)
    | .loop tokens i outq ops =>
      match tokens.get? i with
      | none => (.val (.stks outq ops), st)
      | some t =>
        if t.type = "OPERAND" then
          let (r, st1) := run fuel ws (.operand t) st
          match r with
          | .val (.one v) => run fuel ws (.loop tokens (i + 1) (v :: outq) ops) st1
          | .val _ => (.out, st1)
          | .exn e => (.exn e, st1)
          | .out => (.out, st1)
        else if t.type = "FUNCTION" then
          match tokens.get? (i + 1) with
          | some t2 =>
            if t2.type = "SUBEXPR" ∧ t2.subtype = "OPEN" then
              let argsEnd := findParenEnd tokens.length tokens (i + 2) 1
              let argsTokens := (tokens.take argsEnd).drop (i + 2)
              let (r, st1) := run fuel ws (.funcArgs (splitArgs argsTokens)) st
              match r with
              | .val (.many args) =>
                run fuel ws (.loop tokens (argsEnd + 1) (callFunction t.value args :: outq) ops) st1
              | .val _ => (.out, st1)
              | .exn e => (.exn e, st1)
              | .out => (.out, st1)
            else
              run fuel ws (.loop tokens (i + 1) (callFunction t.value [] :: outq) ops) st
          | none =>
            run fuel ws (.loop tokens (i + 1) (callFunction t.value [] :: outq) ops) st
        else if t.type = "OPERATOR" then
          match drainGE t ops outq with
          | .ok (ops1, outq1) => run fuel ws (.loop tokens (i + 1) outq1 (t :: ops1)) st
          | .error e => (.exn e, st)
        else if t.type = "SUBEXPR" then
          if t.subtype = "OPEN" then
            run fuel ws (.loop tokens (i + 1) outq (t :: ops)) st
          else if t.subtype = "CLOSE" then
            match drainTilOpen ops outq with
            | .ok (ops1, outq1) => run fuel ws (.loop tokens (i + 1) outq1 ops1) st
            | .error e => (.exn e, st)
          else run fuel ws (.loop tokens (i + 1) outq ops) st
        else run fuel ws (.loop tokens (i + 1) outq ops) st
    | .operand t =>
      -- _evaluate_operand
      if t.subtype = "NUMBER" then
        if '.' ∈ t.value then
          (match pyParseFloat t.value with
           | some q => (.val (.one (.float q)), st)
           | none => (.val (.one (.int 0)), st))
        else
          (match pyParseInt t.value with
           | some n => (.val (.one (.int n)), st)
           | none => (.val (.one (.int 0)), st))
      else if t.subtype = "TEXT" then (.val (.one (.str (String.mk t.value))), st)
      else if t.subtype = "REFERENCE" then run fuel ws (.cellVal t.value) st
      else if t.subtype = "RANGE" then run fuel ws (.rangeVals t.value) st
      else if t.subtype = "LOGICAL" then
        (.val (.one (.bool (t.value.map pyUpper = ['T', 'R', 'U', 'E']))), st)
      else if t.subtype = "ERROR" then (.exn .value, st)
      else (.val (.one (.str (String.mk t.value))), st)
    | .cellVal ref =>
      -- _get_cell_value
      match ws with
      | none => (.val (.one (.int 0)), st)
      | some sheet =>
        match parseCellRef ref with
        | none => (.val (.one (.int 0)), st)
        | some (letters, rowNum) =>
          match cellsGet sheet.cells (rowNum, colNumOf letters) with
          | none => (.val (.one (.int 0)), st)
          | some cell =>
            if cell.isFormula then
              let (r, st1) := run fuel ws (.evalF (cell.formula.getD []) (some ref)) st
              match r with
              | .exn .circular => (.val (.one (.str "#CIRCULAR!")), st1)
              | .exn e => (.exn e, st1)
              | .val v => (.val v, st1)
              | .out => (.out, st1)
            else
              match cell.value with
              | some v => (.val (.one v), st)
              | none => (.val (.one (.int 0)), st)
    | .rangeVals ref =>
      -- _get_range_values (the clean single-colon shape the tokenizer
      -- guarantees; a malformed side yields []).
      let side1 := ref.takeWhile (fun c => ¬ c = ':')
      let rest := ref.dropWhile (fun c => ¬ c = ':')
      match rest with
      | ':' :: side2 =>
        (match parseCellRef side1, parseCellRef side2 with
         | some (l1, r1), some (l2, r2) =>
           let c1 := colNumOf l1
           let c2 := colNumOf l2
           let coords := (List.range' (min r1 r2) (max r1 r2 + 1 - min r1 r2)).flatMap
             (fun r => (List.range' (min c1 c2) (max c1 c2 + 1 - min c1 c2)).map
               (fun c => (r, c)))
           let (rv, st1) := run fuel ws (.cellList coords) st
           (match rv with
            | .val (.many vs) => (.val (.one (.list vs)), st1)
            | .val _ => (.out, st1)
            | .exn e => (.exn e, st1)
            | .out => (.out, st1))
         | _, _ => (.val (.one (.list [])), st))
      | _ =>
        -- `':' not in range_ref` → single-cell list
        let (r, st1) := run fuel ws (.cellVal ref) st
        match r with
        | .val (.one v) => (.val (.one (.list [v])), st1)
        | .val _ => (.out, st1)
        | .exn e => (.exn e, st1)
        | .out => (.out, st1)
    | .cellList coords =>
      match coords with
      | [] => (.val (.many []), st)
      | (r, c) :: restCoords =>
        let refStr := colLetterGo c c [] ++ natStr r
        let (rv, st1) := run fuel ws (.cellVal refStr) st
        match rv with
        | .val (.one v) =>
          let (rs, st2) := run fuel ws (.cellList restCoords) st1
          (match rs with
           | .val (.many vs) => (.val (.many (v :: vs)), st2)
           | .val _ => (.out, st2)
           | .exn e => (.exn e, st2)
           | .out => (.out, st2))
        | .val _ => (.out, st1)
        | .exn e => (.exn e, st1)
        | .out => (.out, st1)
    | .funcArgs parts =>
      match parts with
      | [] => (.val (.many []), st)
      | p :: rest =>
        let (r, st1) := run fuel ws (.evalTs p) st
        match r with
        | .val (.one v) =>
          let (rs, st2) := run fuel ws (.funcArgs rest) st1
          (match rs with
           | .val (.many vs) => (.val (.many (v :: vs)), st2)
           | .val _ => (.out, st2)
           | .exn e => (.exn e, st2)
           | .out => (.out, st2))
        | .val _ => (.out, st1)
        | .exn e => (.exn e, st1)
        | .out => (.out, st1)

/-- `FormulaEvaluator.evaluate(formula, cell_address)` from a fresh or given
in-progress set; returns the outcome and the final set. -/
def evaluateWith (fuel : Nat) (ws : Option EvalSheet) (formula : String)
    (addr : Option String) (st : List (List Char)) : Ev PyVal × List (List Char) :=
  match run fuel ws (.evalF formula.data (addr.map String.data)) st with
  | (.val (.one v), st1) => (.val v, st1)
  | (.val _, st1) => (.out, st1)
  | (.exn e, st1) => (.exn e, st1)
  | (.out, st1) => (.out, st1)

/-- Top-level `evaluate` with an empty in-progress set (a fresh
`FormulaEvaluator`), result only. -/
def evaluate (fuel : Nat) (ws : Option EvalSheet) (formula : String)
    (addr : Option String) : Ev PyVal :=
  (evaluateWith fuel ws formula addr []).1

/-! ## Claims on the tokenizer and evaluator -/

/-- Coercibility to a number in the sense of `to_number`. -/
def numCoercible (v : PyVal) : Bool :=
  match to_number v with
  | .ok _ => true
  | .error _ => false

mutual

/-- Flattening of nested sequences (for stating C10's hypothesis). -/
def flattenOne : PyVal → List PyVal
  | .list l => flattenList l
  | v => [v]

/-- Flattening of an argument list. -/
def flattenList : List PyVal → List PyVal
  | [] => []
  | v :: rest => flattenOne v ++ flattenList rest

end

theorem gatherNumeric_nil_of_noncoercible (args : List PyVal)
    (h : (flattenList args).all (fun v => ! numCoercible v) = true) :
    gatherNumeric args = [] := by
  induction args with
  | nil => rfl
  | cons a rest ih =>
    rw [flattenList, List.all_append, Bool.and_eq_true] at h
    have h2 := ih h.2
    cases a with
    | int n =>
      exfalso
      have := h.1
      simp [flattenOne, numCoercible, to_number] at this
    | float q =>
      exfalso
      have := h.1
      simp [flattenOne, numCoercible, to_number] at this
    | bool b =>
      exfalso
      have := h.1
      simp [flattenOne, numCoercible, to_number] at this
    | str t =>
      have hcoer : numCoercible (.str t) = false := by
        have := h.1
        simp [flattenOne] at this
        simpa using this
      show (match to_number (PyVal.str t) with
        | .ok v => v :: gatherNumeric rest
        | .error _ => gatherNumeric rest) = []
      match hto : to_number (PyVal.str t) with
      | .ok v =>
        exfalso
        simp [numCoercible, hto] at hcoer
      | .error e => exact h2
    | list l =>
      have hfilter : l.filter isNumLike = [] := by
        rw [List.filter_eq_nil]
        intro v hv hnum
        have hvflat : v ∈ flattenList l := by
          clear h
          induction l with
          | nil => cases hv
          | cons x xs ihl =>
            rw [flattenList]
            rcases List.mem_cons.mp hv with h1 | h1
            · subst h1
              cases v <;> simp_all [flattenOne, isNumLike]
            · exact List.mem_append.mpr (Or.inr (ihl h1))
        have hall := h.1
        rw [show flattenOne (PyVal.list l) = flattenList l from rfl] at hall
        rw [List.all_eq_true] at hall
        have hv2 := hall v hvflat
        cases v <;> simp_all [numCoercible, to_number, isNumLike]
      show l.filter isNumLike ++ gatherNumeric rest = []
      rw [hfilter, List.nil_append]
      exact h2

/-- C10: a MAX or MIN call whose arguments contain, after flattening nested
sequences, no value coercible to a number (the zero-argument call included)
returns the int 0 rather than an error, while AVERAGE raises
`DivisionByZeroError` in the same situation. -/
theorem C10_max_min_empty (args : List PyVal)
    (h : (flattenList args).all (fun v => ! numCoercible v) = true) :
    func_max args = .ok (.int 0) ∧ func_min args = .ok (.int 0)
      ∧ func_average args = .error .div0 := by
  have hg := gatherNumeric_nil_of_noncoercible args h
  refine ⟨?_, ?_, ?_⟩
  · rw [func_max, hg]
  · rw [func_min, hg]
  · rw [func_average, hg]

/-- Witness for C10 on concrete non-numeric arguments. -/
theorem C10_max_min_empty_witness :
    ((flattenList [PyVal.str "abc", PyVal.list [PyVal.str "x"], PyVal.list []]).all
        (fun v => ! numCoercible v) = true)
    ∧ func_max [PyVal.str "abc", PyVal.list [PyVal.str "x"], PyVal.list []]
        = .ok (.int 0)
    ∧ func_min [PyVal.str "abc", PyVal.list [PyVal.str "x"], PyVal.list []]
        = .ok (.int 0)
    ∧ func_average [PyVal.str "abc", PyVal.list [PyVal.str "x"], PyVal.list []]
        = .error .div0 := by
  have h : (flattenList [PyVal.str "abc", PyVal.list [PyVal.str "x"], PyVal.list []]).all
      (fun v => ! numCoercible v) = true := by rfl
  have := C10_max_min_empty _ h
  exact ⟨h, this.1, this.2.1, this.2.2⟩

set_option maxRecDepth 8000

/-- C6: `evaluate("5/0")` raises `DivisionByZeroError` (display `#DIV/0!`),
and `evaluate("AVERAGE()")` yields the same division-by-zero error through
the function-call channel, where `_call_function` converts the raised
`ExcelError` to its display string `"#DIV/0!"` — never a silent zero. -/
theorem C6_division_errors :
    evaluate 99 none "5/0" none = .exn .div0
    ∧ errStr .div0 = "#DIV/0!"
    ∧ evaluate 99 none "AVERAGE()" none = .val (.str "#DIV/0!") := by
  exact ⟨rfl, rfl, rfl⟩

/-- C7 counterexample: `FOO(1)+1` applies the unknown name `FOO`, yet
`evaluate` does not return the string `"#NAME?"` — the `+` coerces the
`"#NAME?"` operand and raises a typed `#VALUE!` error, falsifying the claim
as stated for this formula. -/
theorem C7_counterexample :
    evaluate 99 none "FOO(1)+1" none = .exn .value
    ∧ evaluate 99 none "FOO(1)+1" none ≠ .val (.str "#NAME?") := by
  refine ⟨rfl, ?_⟩
  intro h
  rw [show evaluate 99 none "FOO(1)+1" none = .exn .value from rfl] at h
  exact nomatch h

/-- C7 amended: the unknown-name dispatch itself returns the literal string
`"#NAME?"` as an ordinary value for every argument list — it never raises —
and a formula consisting of a single unknown-function application therefore
evaluates to that string; an enclosing operation may subsequently raise a
typed error when it consumes the string. -/
theorem C7_unknown_name :
    (∀ (name : List Char) (args : List PyVal),
      String.mk name ∉ BUILTIN_FUNCTION_NAMES → callFunction name args = .str "#NAME?")
    ∧ evaluate 99 none "FOO(1)" none = .val (.str "#NAME?") := by
  refine ⟨?_, rfl⟩
  intro name args hmem
  rw [callFunction, if_neg hmem]

/-- Witness for C7 at the concrete unknown name `FOO`. -/
theorem C7_unknown_name_witness :
    ("FOO" ∉ BUILTIN_FUNCTION_NAMES)
      ∧ callFunction ['F', 'O', 'O'] [PyVal.int 1] = .str "#NAME?" := by
  have h : String.mk ['F', 'O', 'O'] ∉ BUILTIN_FUNCTION_NAMES := by decide
  exact ⟨h, C7_unknown_name.1 ['F', 'O', 'O'] [PyVal.int 1] h⟩

/-- C3 counterexample: the claim puts add/subtract/concatenate and the
comparison operators in one precedence tier, but `_precedence` assigns 2 to
`+` and 1 to `<`; consequently `1<2+3` parses as `1<(2+3)` and evaluates to
the boolean `True`, where a single left-associative tier would compute
`(1<2)+3 = 4.0`. -/
theorem C3_counterexample :
    precedence { value := ['+'], type := "OPERATOR", subtype := "MATH" } = 2
    ∧ precedence { value := ['<'], type := "OPERATOR", subtype := "MATH" } = 1
    ∧ evaluate 99 none "1<2+3" none = .val (.bool true)
    ∧ evaluate 99 none "1<2+3" none ≠ .val (.float 4) := by
  refine ⟨rfl, rfl, rfl, ?_⟩
  intro h
  rw [show evaluate 99 none "1<2+3" none = .val (.bool true) from rfl] at h
  exact nomatch h

/-- C3 amended: precedence high→low is exponentiation (4); multiply/divide
(3); add/subtract/concatenate (2); the comparison operators as the lowest
tier (1); every tier is left-associative (the shunting-yard loop pops on
`>=`), and the literal examples hold: `2+3*4 = 14`, `(2+3)*4 = 20`,
`2-3-4 = -5`. -/
theorem C3_precedence :
    precedence { value := ['^'], type := "OPERATOR", subtype := "MATH" } = 4
    ∧ precedence { value := ['*'], type := "OPERATOR", subtype := "MATH" } = 3
    ∧ precedence { value := ['/'], type := "OPERATOR", subtype := "MATH" } = 3
    ∧ precedence { value := ['+'], type := "OPERATOR", subtype := "MATH" } = 2
    ∧ precedence { value := ['-'], type := "OPERATOR", subtype := "MATH" } = 2
    ∧ precedence { value := ['&'], type := "OPERATOR", subtype := "CONCAT" } = 2
    ∧ precedence { value := ['='], type := "OPERATOR", subtype := "MATH" } = 1
    ∧ precedence { value := ['<'], type := "OPERATOR", subtype := "MATH" } = 1
    ∧ precedence { value := ['>'], type := "OPERATOR", subtype := "MATH" } = 1
    ∧ precedence { value := ['<', '='], type := "OPERATOR", subtype := "MATH" } = 1
    ∧ precedence { value := ['>', '='], type := "OPERATOR", subtype := "MATH" } = 1
    ∧ precedence { value := ['<', '>'], type := "OPERATOR", subtype := "MATH" } = 1
    ∧ evaluate 99 none "2+3*4" none = .val (.float 14)
    ∧ evaluate 99 none "(2+3)*4" none = .val (.float 20)
    ∧ evaluate 99 none "2-3-4" none = .val (.float (-5)) := by
  exact ⟨rfl, rfl, rfl, rfl, rfl, rfl, rfl, rfl, rfl, rfl, rfl, rfl, rfl, rfl, rfl⟩

/-- The A1 cell of the two-cell worksheet of C4: A1 holds `=B1`, B1 holds
`=A1` (as `set_formula` stores them). -/
def cellA1 : EvalCell :=
  { value := some (.str "=B1"), formula := some ['=', 'B', '1'], dataType := some "formula" }

/-- The B1 cell of C4. -/
def cellB1 : EvalCell :=
  { value := some (.str "=A1"), formula := some ['=', 'A', '1'], dataType := some "formula" }

/-- The grid of C4. -/
def circSheet : EvalSheet := { cells := [((1, 1), cellA1), ((1, 2), cellB1)] }

/-- C4: evaluating A1's formula terminates — it completes within recursion
depth 50 (the result is not the fuel-exhaustion marker `.out`, so the
mutual recursion is bounded and cannot overflow the stack) — and yields the
Circular error in its display form `#CIRCULAR!`, with the in-progress set
fully released. -/
theorem C4_circular_terminates :
    evaluateWith 50 (some circSheet) "=B1" (some "A1") []
      = (.val (.str "#CIRCULAR!"), []) := by
  rfl

/-- C2 counterexample: in `(1)-2` the `-` follows a closing parenthesis,
where the claim demands a separate operator token; the lexer instead emits
the single literal `-2` (its `can_be_negative` test accepts any `SUBEXPR`
token, closing parentheses included).  And in `-4` the `-` is at the start,
after no operator/open-group/separator token, yet it is also lexed into the
literal `-4` rather than an operator. -/
theorem C2_counterexample :
    tokenize "(1)-2".data
      = [{ value := ['('], type := "SUBEXPR", subtype := "OPEN" },
         { value := ['1'], type := "OPERAND", subtype := "NUMBER" },
         { value := [')'], type := "SUBEXPR", subtype := "CLOSE" },
         { value := ['-', '2'], type := "OPERAND", subtype := "NUMBER" }]
    ∧ tokenize "-4".data = [{ value := ['-', '4'], type := "OPERAND", subtype := "NUMBER" }] := by
  exact ⟨rfl, rfl⟩

/-- C2 amended: `-` starts a negative numeric literal exactly when the token
list so far is empty (start of formula) or the previous token is an
operator, a subexpression delimiter (opening or closing parenthesis), or an
argument separator; in the remaining positions — immediately after an
operand or function token — `_try_number` declines and the `-` becomes an
operator, so `3-4` lexes as the three tokens `3`, `-`, `4`. -/
theorem C2_minus_contexts :
    (∀ (tokens : List Token) (cs : List Char),
      canBeNegative tokens = false → tryNumber tokens ('-' :: cs) = none)
    ∧ tokenize "3-4".data
      = [{ value := ['3'], type := "OPERAND", subtype := "NUMBER" },
         { value := ['-'], type := "OPERATOR", subtype := "MATH" },
         { value := ['4'], type := "OPERAND", subtype := "NUMBER" }]
    ∧ tokenize "2*-3".data
      = [{ value := ['2'], type := "OPERAND", subtype := "NUMBER" },
         { value := ['*'], type := "OPERATOR", subtype := "MATH" },
         { value := ['-', '3'], type := "OPERAND", subtype := "NUMBER" }]
    ∧ tokenize "(-2)".data
      = [{ value := ['('], type := "SUBEXPR", subtype := "OPEN" },
         { value := ['-', '2'], type := "OPERAND", subtype := "NUMBER" },
         { value := [')'], type := "SUBEXPR", subtype := "CLOSE" }]
    ∧ tokenize "SUM(1,-2)".data
      = [{ value := ['S', 'U', 'M'], type := "FUNCTION", subtype := "" },
         { value := ['('], type := "SUBEXPR", subtype := "OPEN" },
         { value := ['1'], type := "OPERAND", subtype := "NUMBER" },
         { value := [','], type := "ARGUMENT", subtype := "" },
         { value := ['-', '2'], type := "OPERAND", subtype := "NUMBER" },
         { value := [')'], type := "SUBEXPR", subtype := "CLOSE" }] := by
  refine ⟨?_, rfl, rfl, rfl, rfl⟩
  intro tokens cs h
  rw [tryNumber]
  simp only [h]
  rw [if_neg (by simp [h])]

/-- Witness for C2 after an operand token, where the negative context is
refused. -/
theorem C2_minus_contexts_witness :
    canBeNegative [{ value := ['3'], type := "OPERAND", subtype := "NUMBER" }] = false
    ∧ tryNumber [{ value := ['3'], type := "OPERAND", subtype := "NUMBER" }]
        ('-' :: ['4']) = none := by
  refine ⟨rfl, C2_minus_contexts.1 _ _ rfl⟩

/-! ## C5: the in-progress set is restored on every exit path -/

theorem setDiscard_setAdd (a : List Char) (st : List (List Char)) (h : a ∉ st) :
    setDiscard a (setAdd a st) = st := by
  rw [setAdd, if_neg h, setDiscard, List.filter_append]
  have h1 : st.filter (fun x => ¬ x = a) = st := by
    rw [List.filter_eq_self]
    intro x hx
    simp only [decide_eq_true_eq, decide_not]
    simp only [Bool.not_eq_true', decide_eq_false_iff_not]
    intro hxa
    exact h (hxa ▸ hx)
  have h2 : [a].filter (fun x => ¬ x = a) = [] := by simp
  rw [h1, h2, List.append_nil]

/-- Every request of the defunctionalised evaluator leaves the in-progress
set exactly as it found it, on value, error and fuel-exhaustion outcomes
alike: `evaluate` pushes the address only after the circular check and the
modelled `finally` discards it on both the value and the raise path. -/
theorem run_state_preserved :
    ∀ (fuel : Nat) (ws : Option EvalSheet) (req : Req) (st : List (List Char)),
      (run fuel ws req st).2 = st := by
  intro fuel
  induction fuel with
  | zero => intro ws req st; rfl
  | succ fuel ih =>
    intro ws req st
    cases req with
    | evalF formula addr =>
      simp only [run]
      split
      · rfl
      split
      · rfl
      split
      · -- addr = some a: push, recurse, discard on both exits
        split
        · rfl
        rename_i a hmem
        split
        · exact setDiscard_setAdd a st hmem
        · rw [ih ws _ (setAdd a st)]
          exact setDiscard_setAdd a st hmem
      · -- addr = none: no push, state threads through unchanged
        split
        · rfl
        · exact ih ws _ st
    | evalTs tokens =>
      simp only [run]
      split
      · split <;> exact ih ws _ st
      · exact ih ws _ st
      · exact ih ws _ st
      · exact ih ws _ st
    | loop tokens i outq ops =>
      simp only [run]
      split
      · rfl
      split
      · -- OPERAND token
        split
        · exact (ih ws _ _).trans (ih ws _ st)
        · exact ih ws _ st
        · exact ih ws _ st
        · exact ih ws _ st
      split
      · -- FUNCTION token
        split
        · split
          · split
            · exact (ih ws _ _).trans (ih ws _ st)
            · exact ih ws _ st
            · exact ih ws _ st
            · exact ih ws _ st
          · exact ih ws _ st
        · exact ih ws _ st
      split
      · -- OPERATOR token
        split
        · exact ih ws _ st
        · rfl
      split
      · -- SUBEXPR token
        split
        · exact ih ws _ st
        split
        · split
          · exact ih ws _ st
          · rfl
        · exact ih ws _ st
      · exact ih ws _ st
    | operand t =>
      simp only [run]
      split
      · split <;> split <;> rfl
      split
      · rfl
      split
      · exact ih ws _ st
      split
      · exact ih ws _ st
      split
      · rfl
      split
      · rfl
      · rfl
    | cellVal ref =>
      simp only [run]
      split
      · rfl
      split
      · rfl
      split
      · rfl
      split
      · -- formula cell: re-enters evaluate
        split
        · exact ih _ _ _
        · exact ih _ _ _
        · exact ih _ _ _
        · exact ih _ _ _
      · split <;> rfl
    | rangeVals ref =>
      simp only [run]
      split
      · -- a ':' is present: two-sided range
        split
        · split <;> exact ih _ _ _
        all_goals rfl
      · -- no ':': single-cell list
        split <;> exact ih _ _ _
    | cellList coords =>
      simp only [run]
      split
      · rfl
      split
      · split <;> exact (ih _ _ _).trans (ih _ _ _)
      · exact ih _ _ _
      · exact ih _ _ _
      · exact ih _ _ _
    | funcArgs parts =>
      simp only [run]
      split
      · rfl
      split
      · split <;> exact (ih _ _ _).trans (ih _ _ _)
      · exact ih _ _ _
      · exact ih _ _ _
      · exact ih _ _ _

/-- C5: a call to `evaluate(formula, cellAddress)` leaves the in-progress
set exactly as it was before the call, whether it returns a value, raises an
error, or (in the model) exhausts its recursion fuel: the address is pushed
only after the circular check and released on every exit path. -/
theorem C5_stack_restored (fuel : Nat) (ws : Option EvalSheet) (formula : String)
    (addr : Option String) (st : List (List Char)) :
    (evaluateWith fuel ws formula addr st).2 = st := by
  rw [evaluateWith]
  rcases hrun : run fuel ws (.evalF formula.data (addr.map String.data)) st with ⟨r, st1⟩
  have e1 : st1 = st := by
    have := run_state_preserved fuel ws (.evalF formula.data (addr.map String.data)) st
    rw [hrun] at this
    exact this
  cases r with
  | out => exact e1
  | exn e => exact e1
  | val v => cases v <;> exact e1

/-! ## XLSX write/read round-trip (io/xlsx/writer.py, io/xlsx/reader.py)

The zip container and `xml.etree.ElementTree` serialisation are treated as an
identity boundary: a saved package is modelled as the structured content of
the XML elements the writer emits and the reader queries (cell records with
their `r`/`t` attributes, `v`/`is`/`f` texts, merge refs, hyperlink refs and
the relationship table), and `ElementTree` parse is its exact inverse.  A
`<v>` with empty text reads back as `None`, which the reader coalesces to
`""`, so carrying the text as `Option (List Char)` with `some []` is
faithful.  The styling attribute `s` on a cell is omitted: the reader reads
and discards it, so it cannot affect the round trip. -/

/-- A runtime cell value: `str`, `int`, `float` or `bool` (`datetime` is
outside the modelled fragment). -/
inductive CVal where
  | s (v : List Char)
  | i (v : ℤ)
  | f (v : ℚ)
  | b (v : Bool)
deriving DecidableEq

/-- Python `str(value)` on the modelled value kinds. -/
def strOfCVal : CVal → List Char
  | .s v => v
  | .i n => intStr n
  | .f q => pyFloatStr q
  | .b true => "True".data
  | .b false => "False".data

/-- The `Cell` attributes the xlsx writer and reader touch (cell.py):
`_value`, `_data_type`, `_formula`, `_calculated_value`, `_hyperlink`. -/
structure WCell where
  value : Option CVal
  dataType : Option String
  formula : Option (List Char)
  calculated : Option CVal
  hyperlink : Option (List Char)
deriving DecidableEq

/-- A fresh `Cell` as `Worksheet.cell` creates it. -/
def emptyCell : WCell := ⟨none, none, none, none, none⟩

/-- One worksheet: the `_cells` dict (insertion-ordered association list
keyed by `(row, column)`) and the `_merged_ranges` set (insertion order). -/
structure WSheet where
  cells : List ((Nat × Nat) × WCell)
  merged : List (List Char)

/-- `is_formula(value)` (utils/validation.py): starts with `=`. -/
def is_formulaStr (s : List Char) : Bool :=
  match s with
  | c :: _ => decide (c = '=')
  | [] => false

/-- `is_numeric_string(value)` (utils/validation.py): `float(value)` parses.
Modelled over the decimal/exponent grammar `pyParseFloat` covers; the exotic
spellings CPython also accepts (`inf`, `nan`, underscores) are outside the
model on both sides of the round trip. -/
def is_numeric_string (s : List Char) : Bool :=
  (pyParseFloat s).isSome

/-- `infer_data_type(value)` (utils/validation.py); `bool` is tested before
`int` exactly as in the source. -/
def infer_data_type : Option CVal → String
  | none => "empty"
  | some (.b _) => "boolean"
  | some (.i _) => "number"
  | some (.f _) => "number"
  | some (.s s) =>
    if is_formulaStr s then "formula"
    else if is_numeric_string s then "number"
    else "string"

/-- One step of `XlsxWriter._build_shared_strings`: record the value of a
non-formula string cell the first time it is seen. -/
def sharedStep (acc : List (List Char)) (e : (Nat × Nat) × WCell) : List (List Char) :=
  match e.2.value with
  | some (.s str) =>
    if e.2.dataType = some "formula" then acc
    else if str ∈ acc then acc else acc ++ [str]
  | _ => acc

/-- `XlsxWriter._build_shared_strings`: first-seen table of the values of
non-formula string cells; the dict index of a string is its list position. -/
def build_shared_strings (cells : List ((Nat × Nat) × WCell)) : List (List Char) :=
  cells.foldl sharedStep []

/-- Position of a string in the shared table (`shared_strings[value]`). -/
def idxOf (s : List Char) : List (List Char) → Nat
  | [] => 0
  | t :: ts => if t = s then 0 else idxOf s ts + 1

/-- Dict lookup on an association list. -/
def dictGet {κ α : Type} [DecidableEq κ] (k : κ) : List (κ × α) → Option α
  | [] => none
  | e :: rest => if e.1 = k then some e.2 else dictGet k rest

/-- Dict update-or-append on an association list. -/
def dictSet {κ α : Type} [DecidableEq κ] (k : κ) (v : α) : List (κ × α) → List (κ × α)
  | [] => [(k, v)]
  | e :: rest => if e.1 = k then (k, v) :: rest else e :: dictSet k v rest

/-- The structured content of one `<c>` element: the `r` and `t` attributes
and the texts of the `v`, `is/t` and `f` children. -/
structure XCell where
  r : List Char
  t : Option String
  v : Option (List Char)
  inlineText : Option (List Char)
  f : Option (List Char)
deriving DecidableEq

/-- `cell.coordinate` (cell.py): `tuple_to_coordinate` on the cell's key;
the error branch is unreachable for keys a `Worksheet` can hold (its `cell`
method rejects `row < 1` and `column < 1`). -/
def coordStr (rc : Nat × Nat) : List Char :=
  (tuple_to_coordinate rc.1 rc.2).toOption.getD []

/-- `XlsxWriter._write_cell`: dispatch on the runtime type of the value
exactly as the source's `isinstance` chain does (non-formula `str`, then
`bool`, then `int`/`float`, then `cell.is_formula()`); a `None` value — which
`_write_worksheet` filters out before calling — would fall to the final
`else` and emit an empty `<v>`.  In the formula branch the cached value is
`_calculated_value` when set, else the `calculated_value` property, which
for a formula cell without a cached result returns `_value` (the formula
text itself), so the `eval`-based fallback in `_get_fallback_formula_value`
is unreachable while the value is not `None`. -/
def write_cell (shared : List (List Char)) (rc : Nat × Nat) (cell : WCell) : XCell :=
  let coord := coordStr rc
  match cell.value with
  | some (.s s) =>
    if cell.dataType = some "formula" then
      let ftext := (strOfCVal (.s s)).drop 1
      let cv : CVal := cell.calculated.getD (.s s)
      match cv with
      | .b bv => ⟨coord, some "b", some (if bv then ['1'] else ['0']), none, some ftext⟩
      | .i n => ⟨coord, none, some (intStr n), none, some ftext⟩
      | .f q => ⟨coord, none, some (pyFloatStr q), none, some ftext⟩
      | .s cs =>
        if cs ∈ shared then
          ⟨coord, some "s", some (natStr (idxOf cs shared)), none, some ftext⟩
        else ⟨coord, some "str", some cs, none, some ftext⟩
    else if s ∈ shared then
      ⟨coord, some "s", some (natStr (idxOf s shared)), none, none⟩
    else ⟨coord, some "inlineStr", none, some s, none⟩
  | some (.b bv) => ⟨coord, some "b", some (if bv then ['1'] else ['0']), none, none⟩
  | some (.i n) => ⟨coord, none, some (intStr n), none, none⟩
  | some (.f q) => ⟨coord, none, some (pyFloatStr q), none, none⟩
  | none => ⟨coord, none, some [], none, none⟩

/-- `Cell.has_hyperlink`: `_hyperlink is not None and _hyperlink.strip() != ""`
(a stripped string is nonempty exactly when some character is not
whitespace). -/
def has_hyperlink (c : WCell) : Bool :=
  match c.hyperlink with
  | some h => !(h.all isPySpace)
  | none => false

/-- The relationship id string `f"rId{idx}"`. -/
def rIdStr (i : Nat) : List Char := 'r' :: 'I' :: 'd' :: natStr i

/-- The hyperlink-bearing cells, in `_cells.values()` (insertion) order. -/
def hyperCells (cells : List ((Nat × Nat) × WCell)) : List ((Nat × Nat) × WCell) :=
  cells.filter (fun e => has_hyperlink e.2)

/-- The `<hyperlink ref=… r:id=…>` elements, ids numbered from the given
index (`enumerate(hyperlinks, 1)`). -/
def mkHyperElems : Nat → List ((Nat × Nat) × WCell) → List (List Char × List Char)
  | _, [] => []
  | i, e :: es => (coordStr e.1, rIdStr i) :: mkHyperElems (i + 1) es

/-- The worksheet `.rels` entries `Id=rId{idx}` / `Target=cell.hyperlink`
(`XlsxWriter._write_worksheet_rels`). -/
def mkRels : Nat → List ((Nat × Nat) × WCell) → List (List Char × List Char)
  | _, [] => []
  | i, e :: es => (rIdStr i, e.2.hyperlink.getD []) :: mkRels (i + 1) es

/-- Insert one entry into a list sorted by key, row-major. -/
def insertCell (e : (Nat × Nat) × WCell) :
    List ((Nat × Nat) × WCell) → List ((Nat × Nat) × WCell)
  | [] => [e]
  | x :: xs =>
    if e.1.1 < x.1.1 ∨ (e.1.1 = x.1.1 ∧ e.1.2 ≤ x.1.2) then e :: x :: xs
    else x :: insertCell e xs

/-- The writer's emission order: rows ascending, columns ascending within a
row (`sorted(rows_data.keys())` / `sorted(rows_data[row].keys())`),
flattened. -/
def sortCells : List ((Nat × Nat) × WCell) → List ((Nat × Nat) × WCell)
  | [] => []
  | e :: es => insertCell e (sortCells es)

/-- The `<sheetData>` cell elements: sorted traversal, skipping cells whose
value is `None` (`if cell.value is not None`). -/
def write_sheet_data (shared : List (List Char)) (cells : List ((Nat × Nat) × WCell)) :
    List XCell :=
  (sortCells cells).filterMap
    (fun e => match e.2.value with
      | none => none
      | some _ => some (write_cell shared e.1 e.2))

/-- The structured content of a saved single-sheet package. -/
structure XPkg where
  sheetCells : List XCell
  merges : List (List Char)
  hyperlinks : List (List Char × List Char)
  rels : List (List Char × List Char)
  shared : List (List Char)

/-- `XlsxWriter.save` restricted to one worksheet: shared-string table,
sorted sheet data, merge refs in set order, hyperlink elements and their
relationship entries numbered from 1. -/
def write_workbook (ws : WSheet) : XPkg :=
  let shared := build_shared_strings ws.cells
  let hs := hyperCells ws.cells
  ⟨write_sheet_data shared ws.cells, ws.merged, mkHyperElems 1 hs, mkRels 1 hs, shared⟩

/-- `XlsxReader._parse_cell_value`. -/
def parse_cell_value (raw : List Char) (t : String) (shared : List (List Char)) : CVal :=
  if t = "s" then
    match pyParseInt raw with
    | some idx =>
      if 0 ≤ idx ∧ idx < (shared.length : ℤ) then .s (shared.getD idx.toNat [])
      else .s raw
    | none => .s raw
  else if t = "n" then
    if '.' ∈ raw ∨ 'e' ∈ raw.map Char.toLower then
      match pyParseFloat raw with
      | some q => .f q
      | none => .s raw
    else
      match pyParseInt raw with
      | some n => .i n
      | none => .s raw
  else if t = "b" then .b (decide (raw = ['1']))
  else if t = "str" then .s raw
  else if t = "inlineStr" then .s raw
  else .s raw

/-- One iteration of `XlsxReader._process_sheet_data`: skip on a missing or
unparsable `r` attribute, get-or-create the cell, install the formula (text
prefixed with `=` unless already so), then the value — cached result for a
formula cell, plain value through the inferring setter otherwise.  An `ok`
from `coordinate_to_tuple` always has row ≥ 1 and column ≥ 1, so the
`Worksheet.cell` coordinate guard cannot raise here. -/
def processXCell (shared : List (List Char)) (g : List ((Nat × Nat) × WCell))
    (xc : XCell) : List ((Nat × Nat) × WCell) :=
  if xc.r = [] then g
  else
    match coordinate_to_tuple xc.r with
    | .error _ => g
    | .ok rc =>
      let c0 := (dictGet rc g).getD emptyCell
      let c1 :=
        match xc.f with
        | some ftext =>
          if ftext = [] then c0
          else
            let ff := if is_formulaStr ftext then ftext else '=' :: ftext
            { c0 with formula := some ff, dataType := some "formula", value := some (.s ff) }
        | none => c0
      let c2 :=
        match xc.v with
        | some raw =>
          let cv := parse_cell_value raw (xc.t.getD "n") shared
          if c1.dataType = some "formula" then { c1 with calculated := some cv }
          else { c1 with value := some cv, dataType := some (infer_data_type (some cv)) }
        | none => c1
      dictSet rc c2 g

/-- `XlsxReader._process_sheet_data` over the whole cell list. -/
def process_sheet_data (shared : List (List Char)) :
    List XCell → List ((Nat × Nat) × WCell) → List ((Nat × Nat) × WCell)
  | [], g => g
  | xc :: rest, g => process_sheet_data shared rest (processXCell shared g xc)

/-- One hyperlink application: guarded on a nonempty ref and id and a hit in
the relationship table, then get-or-create and set `_hyperlink`. -/
def processHyper (rels : List (List Char × List Char)) (g : List ((Nat × Nat) × WCell))
    (e : List Char × List Char) : List ((Nat × Nat) × WCell) :=
  if e.1 = [] ∨ e.2 = [] then g
  else
    match dictGet e.2 rels with
    | none => g
    | some tgt =>
      match coordinate_to_tuple e.1 with
      | .error _ => g
      | .ok rc =>
        let c0 := (dictGet rc g).getD emptyCell
        dictSet rc { c0 with hyperlink := some tgt } g

/-- `XlsxReader._process_hyperlinks` over the hyperlink elements. -/
def process_hyperlinks (rels : List (List Char × List Char)) :
    List (List Char × List Char) → List ((Nat × Nat) × WCell) →
      List ((Nat × Nat) × WCell)
  | [], g => g
  | e :: rest, g => process_hyperlinks rels rest (processHyper rels g e)

/-- `XlsxReader` on one worksheet: populate cells, collect merge refs into
the `_merged_ranges` set (skipping falsy refs), then apply hyperlinks — the
source returns early when the `<hyperlinks>` element is absent. -/
def read_workbook (pkg : XPkg) : WSheet :=
  let g1 := process_sheet_data pkg.shared pkg.sheetCells []
  let merged := pkg.merges.foldl (fun acc r => if r = [] then acc else setAdd r acc) []
  let g2 := if pkg.hyperlinks = [] then g1 else process_hyperlinks pkg.rels pkg.hyperlinks g1
  ⟨g2, merged⟩

/-- What sheet-data processing alone restores of a written cell: everything
but the hyperlink, which travels through the relationship table instead. -/
def readCell (c : WCell) : WCell := { c with hyperlink := none }

/-- The saved-grid discipline for one cell: coordinates a `Worksheet` can
hold, a present value whose data type is the setter's inference, a hyperlink
that is absent or survives `has_hyperlink`, and — exactly when the value is a
formula string — a stored formula equal to the value, a present cached value
(decimal-representable when a float), and a body that is nonempty and does
not itself start with `=`; non-formula cells carry no formula or cache, and
float values are decimal-representable. -/
def wfCell (e : (Nat × Nat) × WCell) : Bool :=
  decide (1 ≤ e.1.1) && decide (1 ≤ e.1.2) &&
  (match e.2.value with
   | none => false
   | some v =>
     decide (e.2.dataType = some (infer_data_type (some v))) &&
     (match e.2.hyperlink with
      | none => true
      | some h => !(h.all isPySpace)) &&
     (match v with
      | .s s =>
        if is_formulaStr s then
          !(decide (s.drop 1 = [])) &&
          !(is_formulaStr (s.drop 1)) &&
          decide (e.2.formula = some s) &&
          (match e.2.calculated with
           | some (.f q) => (decExp q.den).isSome
           | some _ => true
           | none => false)
        else decide (e.2.formula = none) && decide (e.2.calculated = none)
      | .i _ => decide (e.2.formula = none) && decide (e.2.calculated = none)
      | .f q =>
        (decExp q.den).isSome &&
        decide (e.2.formula = none) && decide (e.2.calculated = none)
      | .b _ => decide (e.2.formula = none) && decide (e.2.calculated = none)))

/-- Pairwise-distinct keys (a Python dict cannot hold duplicates). -/
def keysNodup : List ((Nat × Nat) × WCell) → Bool
  | [] => true
  | e :: es => es.all (fun e2 => !(decide (e2.1 = e.1))) && keysNodup es

/-- Pairwise-distinct merge refs (a Python set cannot hold duplicates). -/
def mergesNodup : List (List Char) → Bool
  | [] => true
  | m :: ms => !(decide (m ∈ ms)) && mergesNodup ms

/-- A worksheet as the library itself builds one: distinct keys, every cell
well formed, and distinct nonempty merge refs. -/
def wellFormedSheet (ws : WSheet) : Bool :=
  keysNodup ws.cells && ws.cells.all wfCell &&
  mergesNodup ws.merged && ws.merged.all (fun m => !(decide (m = [])))

/-! ### Round-trip infrastructure -/

theorem dictGet_dictSet_self {κ α : Type} [DecidableEq κ] (k : κ) (v : α) :
    ∀ g : List (κ × α), dictGet k (dictSet k v g) = some v := by
  intro g
  induction g with
  | nil => simp [dictGet, dictSet]
  | cons e rest ih =>
    rw [dictSet]
    split
    · simp [dictGet]
    · rw [dictGet, if_neg (by assumption), ih]

theorem dictGet_dictSet_other {κ α : Type} [DecidableEq κ] (k k2 : κ) (v : α)
    (hne : ¬ k2 = k) : ∀ g : List (κ × α), dictGet k2 (dictSet k v g) = dictGet k2 g := by
  intro g
  induction g with
  | nil =>
    simp only [dictSet, dictGet]
    rw [if_neg (fun h => hne h.symm)]
  | cons e rest ih =>
    rw [dictSet]
    split
    · rename_i hek
      rw [dictGet, dictGet, if_neg (fun h => hne h.symm),
        if_neg (by rw [hek]; exact fun h => hne h.symm)]
    · rw [dictGet, dictGet]
      split
      · rfl
      · exact ih

theorem dictSet_append {κ α : Type} [DecidableEq κ] (k : κ) (v : α) :
    ∀ g : List (κ × α), dictGet k g = none → dictSet k v g = g ++ [(k, v)] := by
  intro g
  induction g with
  | nil => intro _; rfl
  | cons e rest ih =>
    intro h
    rw [dictGet] at h
    rw [dictSet]
    split
    · rename_i hek
      rw [if_pos hek] at h
      exact absurd h (by simp)
    · rename_i hek
      rw [if_neg hek] at h
      rw [ih h]
      rfl

theorem dictGet_append {κ α : Type} [DecidableEq κ] (k : κ) :
    ∀ xs ys : List (κ × α),
      dictGet k (xs ++ ys)
        = match dictGet k xs with
          | some v => some v
          | none => dictGet k ys := by
  intro xs ys
  induction xs with
  | nil => simp [dictGet]
  | cons e rest ih =>
    rw [List.cons_append, dictGet, dictGet]
    split
    · rfl
    · exact ih

theorem mem_of_dictGet {κ α : Type} [DecidableEq κ] {k : κ} {v : α} :
    ∀ {l : List (κ × α)}, dictGet k l = some v → (k, v) ∈ l := by
  intro l
  induction l with
  | nil => intro h; exact absurd h (by simp [dictGet])
  | cons e rest ih =>
    intro h
    rw [dictGet] at h
    split at h
    · rename_i hek
      have hv : e.2 = v := Option.some.inj h
      have hev : e = (k, v) := Prod.ext hek hv
      rw [← hev]
      exact List.mem_cons_self e rest
    · exact List.mem_cons_of_mem _ (ih h)

theorem dictGet_of_mem_nodup {κ α : Type} [DecidableEq κ] {k : κ} {v : α} :
    ∀ {l : List (κ × α)}, (k, v) ∈ l → (l.map Prod.fst).Nodup → dictGet k l = some v := by
  intro l
  induction l with
  | nil => intro h _; exact absurd h (by simp)
  | cons e rest ih =>
    intro hmem hnd
    rw [List.map_cons, List.nodup_cons] at hnd
    rcases List.mem_cons.mp hmem with heq | hmem2
    · rw [dictGet, ← heq]
      simp
    · rw [dictGet]
      split
      · rename_i hek
        exact absurd (hek ▸ List.mem_map_of_mem Prod.fst hmem2) hnd.1
      · exact ih hmem2 hnd.2

theorem dictGet_none_iff {κ α : Type} [DecidableEq κ] {k : κ} :
    ∀ {l : List (κ × α)}, dictGet k l = none ↔ k ∉ l.map Prod.fst := by
  intro l
  induction l with
  | nil => simp [dictGet]
  | cons e rest ih =>
    rw [dictGet]
    split
    · rename_i hek
      simp [hek]
    · rename_i hek
      simp only [List.map_cons, List.mem_cons, ih]
      constructor
      · rintro h (h1 | h2)
        · exact hek h1.symm
        · exact h h2
      · intro h
        exact fun h2 => h (Or.inr h2)

theorem dictGet_map {κ α : Type} [DecidableEq κ] (k : κ) (rd : α → α) :
    ∀ l : List (κ × α),
      dictGet k (l.map (fun e => (e.1, rd e.2))) = (dictGet k l).map rd := by
  intro l
  induction l with
  | nil => simp [dictGet]
  | cons e rest ih =>
    rw [List.map_cons, dictGet, dictGet]
    split
    · rfl
    · exact ih

theorem keysNodup_iff : ∀ {l : List ((Nat × Nat) × WCell)},
    keysNodup l = true ↔ (l.map Prod.fst).Nodup := by
  intro l
  induction l with
  | nil => simp [keysNodup]
  | cons e rest ih =>
    rw [keysNodup, List.map_cons, List.nodup_cons, Bool.and_eq_true, ih]
    constructor
    · rintro ⟨h1, h2⟩
      refine ⟨?_, h2⟩
      intro hmem
      rcases List.mem_map.mp hmem with ⟨e2, hm, he⟩
      rw [List.all_eq_true] at h1
      have := h1 e2 hm
      simp only [Bool.not_eq_true', decide_eq_false_iff_not] at this
      exact this he
    · rintro ⟨h1, h2⟩
      refine ⟨?_, h2⟩
      rw [List.all_eq_true]
      intro e2 hm
      simp only [Bool.not_eq_true', decide_eq_false_iff_not]
      intro he
      exact h1 (List.mem_map.mpr ⟨e2, hm, he⟩)

theorem insertCell_perm (e : (Nat × Nat) × WCell) :
    ∀ l, List.Perm (insertCell e l) (e :: l) := by
  intro l
  induction l with
  | nil => exact List.Perm.refl _
  | cons x xs ih =>
    rw [insertCell]
    split
    · exact List.Perm.refl _
    · exact (List.Perm.cons x ih).trans (List.Perm.swap e x xs)

theorem sortCells_perm : ∀ l, List.Perm (sortCells l) l := by
  intro l
  induction l with
  | nil => exact List.Perm.refl _
  | cons e es ih =>
    rw [sortCells]
    exact (insertCell_perm e (sortCells es)).trans (ih.cons e)

theorem dictGet_eq_of_perm {κ α : Type} [DecidableEq κ] {l1 l2 : List (κ × α)}
    (hp : List.Perm l1 l2) (hnd : (l2.map Prod.fst).Nodup) (k : κ) :
    dictGet k l1 = dictGet k l2 := by
  have hnd1 : (l1.map Prod.fst).Nodup := ((hp.map Prod.fst).nodup_iff).mpr hnd
  cases h2 : dictGet k l2 with
  | some v => exact dictGet_of_mem_nodup (hp.mem_iff.mpr (mem_of_dictGet h2)) hnd1
  | none =>
    rw [dictGet_none_iff] at h2 ⊢
    intro hk
    exact h2 ((hp.map Prod.fst).mem_iff.mp hk)

theorem getD_idxOf {s : List Char} :
    ∀ {tbl : List (List Char)}, s ∈ tbl → tbl.getD (idxOf s tbl) [] = s := by
  intro tbl
  induction tbl with
  | nil => intro h; exact absurd h (by simp)
  | cons t ts ih =>
    intro hmem
    rw [idxOf]
    split
    · rename_i ht
      simpa using ht
    · rename_i ht
      rcases List.mem_cons.mp hmem with heq | hm
      · exact absurd heq.symm ht
      · rw [List.getD_cons_succ]
        exact ih hm

theorem idxOf_lt {s : List Char} :
    ∀ {tbl : List (List Char)}, s ∈ tbl → idxOf s tbl < tbl.length := by
  intro tbl
  induction tbl with
  | nil => intro h; exact absurd h (by simp)
  | cons t ts ih =>
    intro hmem
    rw [idxOf]
    split
    · simp
    · rename_i ht
      rcases List.mem_cons.mp hmem with heq | hm
      · exact absurd heq.symm ht
      · simpa using ih hm

theorem natStr_inj {a b : Nat} (h : natStr a = natStr b) : a = b := by
  have ha := parseDigits_natStr a
  rw [h, parseDigits_natStr b] at ha
  exact (Option.some.inj ha).symm

theorem rIdStr_inj {i j : Nat} (h : rIdStr i = rIdStr j) : i = j := by
  rw [rIdStr, rIdStr] at h
  exact natStr_inj (by injection h with h1 h; injection h with h1 h; injection h with h1 h)

theorem coordStr_eq (r c : Nat) (hr : 1 ≤ r) (hc : 1 ≤ c) :
    coordStr (r, c) = colLetterGo c c [] ++ natStr r := by
  have h1 : tuple_to_coordinate r c = .ok (colLetterGo c c [] ++ natStr r) := by
    rw [tuple_to_coordinate, if_neg (by omega), column_index_to_letter, if_neg (by omega)]
  rw [coordStr]
  rw [show ((r, c) : Nat × Nat).1 = r from rfl, show ((r, c) : Nat × Nat).2 = c from rfl, h1]
  rfl

theorem coordStr_ne_nil (r c : Nat) (hr : 1 ≤ r) (hc : 1 ≤ c) :
    ¬ coordStr (r, c) = [] := by
  rw [coordStr_eq r c hr hc]
  intro h
  exact colLetterGo_ne_nil c hc (by simpa using (List.append_eq_nil.mp h).1)

theorem coordinate_to_tuple_coordStr (r c : Nat) (hr : 1 ≤ r) (hc : 1 ≤ c) :
    coordinate_to_tuple (coordStr (r, c)) = .ok (r, c) := by
  rw [coordStr_eq r c hr hc]
  exact coordinate_to_tuple_of_written r c hr hc

theorem decExp_dvd {den d : Nat} (h : decExp den = some d) : den ∣ 10 ^ d ∧ ¬ den = 0 := by
  simp only [decExp] at h
  split at h
  · rename_i hden
    have hd : max (max (factorCount 2 den) (factorCount 5 den)) 1 = d := Option.some.inj h
    constructor
    · rw [hden, show (10 : Nat) ^ d = 2 ^ d * 5 ^ d by rw [← Nat.mul_pow]]
      exact Nat.mul_dvd_mul
        (Nat.pow_dvd_pow 2 (le_trans (Nat.le_max_left _ _) (hd ▸ Nat.le_max_left _ _)))
        (Nat.pow_dvd_pow 5 (le_trans (Nat.le_max_right _ _) (hd ▸ Nat.le_max_left _ _)))
    · rw [hden]
      positivity
  · exact absurd h (by simp)

theorem pyFloatStr_roundtrip {q : ℚ} {d : Nat} (h : decExp q.den = some d) :
    pyParseFloat (pyFloatStr q) = some q := by
  obtain ⟨hdvd, hden0⟩ := decExp_dvd h
  obtain ⟨k, hk⟩ := hdvd
  have hdpos : 0 < q.den := Nat.pos_of_ne_zero hden0
  have hdiv : (10 : Nat) ^ d / q.den = k := by rw [hk]; exact Nat.mul_div_cancel_left k hdpos
  rw [pyFloatStr, h, pyParseFloat_fixedPoint, hdiv]
  congr 1
  have hk0 : ¬ k = 0 := by
    intro h0
    rw [h0, Nat.mul_zero] at hk
    have h10 : (0 : Nat) < 10 ^ d := Nat.pow_pos (by norm_num)
    omega
  have hkq : ((k : ℚ)) ≠ 0 := Nat.cast_ne_zero.mpr hk0
  have h10q : ((10 : ℚ)) ^ d = (q.den : ℚ) * (k : ℚ) := by
    exact_mod_cast congrArg (fun n : Nat => (n : ℚ)) hk
  rw [h10q]
  push_cast
  rw [mul_div_mul_right _ _ hkq]
  exact Rat.num_div_den q

theorem pyFloatStr_point {q : ℚ} {d : Nat} (h : decExp q.den = some d) :
    '.' ∈ pyFloatStr q := by
  rw [pyFloatStr, h]
  exact fixedPointStr_has_point _ d

theorem sharedStep_mono {s : List Char} {acc : List (List Char)}
    (e : (Nat × Nat) × WCell) (h : s ∈ acc) : s ∈ sharedStep acc e := by
  rw [sharedStep]
  split
  · split
    · exact h
    split
    · exact h
    · exact List.mem_append_left _ h
  · exact h

theorem foldl_sharedStep_mono {s : List Char} :
    ∀ (l : List ((Nat × Nat) × WCell)) (acc), s ∈ acc → s ∈ l.foldl sharedStep acc := by
  intro l
  induction l with
  | nil => intro acc h; exact h
  | cons e es ih => intro acc h; exact ih _ (sharedStep_mono e h)

theorem build_shared_mem {cells : List ((Nat × Nat) × WCell)} {rc : Nat × Nat}
    {c : WCell} {s : List Char} (hmem : (rc, c) ∈ cells) (hv : c.value = some (.s s))
    (hf : ¬ c.dataType = some "formula") : s ∈ build_shared_strings cells := by
  rw [build_shared_strings]
  have aux : ∀ (l : List ((Nat × Nat) × WCell)) (acc), (rc, c) ∈ l →
      s ∈ l.foldl sharedStep acc := by
    intro l
    induction l with
    | nil => intro acc h; exact absurd h (by simp)
    | cons e es ih =>
      intro acc hm
      rcases List.mem_cons.mp hm with heq | hm2
      · rw [List.foldl_cons]
        apply foldl_sharedStep_mono
        rw [← heq, sharedStep]
        show s ∈ (match c.value with
          | some (.s str) =>
            if c.dataType = some "formula" then acc
            else if str ∈ acc then acc else acc ++ [str]
          | _ => acc)
        rw [hv]
        show s ∈ (if c.dataType = some "formula" then acc
          else if s ∈ acc then acc else acc ++ [s])
        rw [if_neg hf]
        split
        · assumption
        · exact List.mem_append_right _ (by simp)
      · rw [List.foldl_cons]
        exact ih _ hm2
  exact aux cells [] hmem

/-- The cell `processXCell` builds from the given previous state and the
`t`, `v` and `f` content (its body after coordinate validation). -/
def readXCellAt (shared : List (List Char)) (prev : Option WCell) (t : Option String)
    (v ff : Option (List Char)) : WCell :=
  let c0 := prev.getD emptyCell
  let c1 :=
    match ff with
    | some ftext =>
      if ftext = [] then c0
      else
        let ff2 := if is_formulaStr ftext then ftext else '=' :: ftext
        { c0 with formula := some ff2, dataType := some "formula", value := some (.s ff2) }
    | none => c0
  match v with
  | some raw =>
    let cv := parse_cell_value raw (t.getD "n") shared
    if c1.dataType = some "formula" then { c1 with calculated := some cv }
    else { c1 with value := some cv, dataType := some (infer_data_type (some cv)) }
  | none => c1

theorem processXCell_eval (shared : List (List Char)) (g : List ((Nat × Nat) × WCell))
    (r c : Nat) (hr : 1 ≤ r) (hc : 1 ≤ c) (t : Option String)
    (v it ff : Option (List Char)) :
    processXCell shared g ⟨coordStr (r, c), t, v, it, ff⟩
      = dictSet (r, c) (readXCellAt shared (dictGet (r, c) g) t v ff) g := by
  simp only [processXCell]
  rw [if_neg (coordStr_ne_nil r c hr hc), coordinate_to_tuple_coordStr r c hr hc]
  rfl

theorem parse_cell_int (shared : List (List Char)) (n : ℤ) :
    parse_cell_value (intStr n) "n" shared = .i n := by
  rw [parse_cell_value, if_neg (by decide), if_pos rfl]
  rw [if_neg (by
    rintro (h1 | h2)
    · exact (intStr_no_point_no_e n).1 h1
    · exact (intStr_no_point_no_e n).2 h2)]
  rw [pyParseInt_intStr]

theorem parse_cell_float (shared : List (List Char)) {q : ℚ} {d : Nat}
    (h : decExp q.den = some d) : parse_cell_value (pyFloatStr q) "n" shared = .f q := by
  rw [parse_cell_value, if_neg (by decide), if_pos rfl]
  rw [if_pos (Or.inl (pyFloatStr_point h))]
  rw [pyFloatStr_roundtrip h]

theorem parse_cell_bool (shared : List (List Char)) (bv : Bool) :
    parse_cell_value (if bv then ['1'] else ['0']) "b" shared = .b bv := by
  cases bv <;> rfl

theorem parse_cell_sharedstr (shared : List (List Char)) {str : List Char}
    (h : str ∈ shared) :
    parse_cell_value (natStr (idxOf str shared)) "s" shared = .s str := by
  rw [parse_cell_value, if_pos rfl, pyParseInt_natStr]
  show (if 0 ≤ ((idxOf str shared : ℤ)) ∧ ((idxOf str shared : ℤ)) < (shared.length : ℤ) then CVal.s (shared.getD ((idxOf str shared : ℤ)).toNat []) else CVal.s (natStr (idxOf str shared))) = CVal.s str
  rw [if_pos ⟨Int.natCast_nonneg _, by exact_mod_cast idxOf_lt h⟩]
  rw [show ((idxOf str shared : ℤ)).toNat = idxOf str shared from Int.toNat_natCast _]
  rw [getD_idxOf h]

theorem parse_cell_str (shared : List (List Char)) (cs : List Char) :
    parse_cell_value cs "str" shared = .s cs := by
  rw [parse_cell_value, if_neg (by decide), if_neg (by decide), if_neg (by decide),
    if_pos rfl]

theorem is_formulaStr_shape {str : List Char} (h : is_formulaStr str = true) :
    str = '=' :: str.drop 1 := by
  cases str with
  | nil => exact absurd h (by decide)
  | cons ch rest =>
    rw [is_formulaStr, decide_eq_true_eq] at h
    rw [h]
    rfl

theorem infer_ne_formula {str : List Char} (h : is_formulaStr str = false) :
    ¬ infer_data_type (some (.s str)) = "formula" := by
  rw [infer_data_type]
  rw [if_neg (by rw [h]; exact fun hh => Bool.false_ne_true hh)]
  split <;> decide

/-- One written cell read back: sheet-data processing restores everything
but the hyperlink.  The shared-table hypothesis is what
`_build_shared_strings` guarantees for the worksheet's own string cells. -/
theorem write_read_cell (shared : List (List Char)) (rc : Nat × Nat) (cell : WCell)
    (g : List ((Nat × Nat) × WCell)) (hwf : wfCell (rc, cell) = true)
    (hsh : ∀ str, cell.value = some (.s str) → ¬ cell.dataType = some "formula" →
      str ∈ shared)
    (hg : dictGet rc g = none) :
    processXCell shared g (write_cell shared rc cell) = dictSet rc (readCell cell) g := by
  obtain ⟨r, c⟩ := rc
  obtain ⟨val, dt, fm, cc, hl⟩ := cell
  simp only [wfCell, Bool.and_eq_true, decide_eq_true_eq] at hwf
  obtain ⟨⟨hr, hc⟩, hrest⟩ := hwf
  cases val with
  | none => simp at hrest
  | some v =>
    cases v with
    | i n =>
      simp only [Bool.and_eq_true, decide_eq_true_eq] at hrest
      obtain ⟨⟨hdt, _⟩, hfm, hcc⟩ := hrest
      subst hdt
      subst hfm
      subst hcc
      show processXCell shared g ⟨coordStr (r, c), none, some (intStr n), none, none⟩ = _
      rw [processXCell_eval shared g r c hr hc, hg]
      refine congrArg (fun x => dictSet (r, c) x g) ?_
      show ({ emptyCell with value := some (parse_cell_value (intStr n) "n" shared), dataType := some (infer_data_type (some (parse_cell_value (intStr n) "n" shared))) } : WCell) = _
      rw [parse_cell_int]
      rfl
    | f q =>
      simp only [Bool.and_eq_true, decide_eq_true_eq] at hrest
      obtain ⟨⟨hdt, _⟩, ⟨hdec, hfm⟩, hcc⟩ := hrest
      subst hdt
      subst hfm
      subst hcc
      obtain ⟨d, hd⟩ := Option.isSome_iff_exists.mp hdec
      show processXCell shared g ⟨coordStr (r, c), none, some (pyFloatStr q), none, none⟩ = _
      rw [processXCell_eval shared g r c hr hc, hg]
      refine congrArg (fun x => dictSet (r, c) x g) ?_
      show ({ emptyCell with value := some (parse_cell_value (pyFloatStr q) "n" shared), dataType := some (infer_data_type (some (parse_cell_value (pyFloatStr q) "n" shared))) } : WCell) = _
      rw [parse_cell_float shared hd]
      rfl
    | b bv =>
      simp only [Bool.and_eq_true, decide_eq_true_eq] at hrest
      obtain ⟨⟨hdt, _⟩, hfm, hcc⟩ := hrest
      subst hdt
      subst hfm
      subst hcc
      show processXCell shared g ⟨coordStr (r, c), some "b", some (if bv then ['1'] else ['0']), none, none⟩ = _
      rw [processXCell_eval shared g r c hr hc, hg]
      refine congrArg (fun x => dictSet (r, c) x g) ?_
      show ({ emptyCell with value := some (parse_cell_value (if bv then ['1'] else ['0']) "b" shared), dataType := some (infer_data_type (some (parse_cell_value (if bv then ['1'] else ['0']) "b" shared))) } : WCell) = _
      rw [parse_cell_bool]
      cases bv <;> rfl
    | s str =>
      simp only [Bool.and_eq_true, decide_eq_true_eq] at hrest
      obtain ⟨⟨hdt, _⟩, hval⟩ := hrest
      by_cases hfs : is_formulaStr str = true
      · -- a formula cell
        rw [if_pos hfs] at hval
        simp only [Bool.and_eq_true, Bool.not_eq_true', decide_eq_true_eq,
          decide_eq_false_iff_not] at hval
        obtain ⟨⟨⟨hne, hnf⟩, hfm⟩, hcalc⟩ := hval
        subst hfm
        have hshape := is_formulaStr_shape hfs
        have hdtf : infer_data_type (some (.s str)) = "formula" := by
          rw [infer_data_type, if_pos hfs]
        rw [hdtf] at hdt
        subst hdt
        cases cc with
        | none => simp at hcalc
        | some cval =>
          have key : ∀ xt xv,
              parse_cell_value xv (xt.getD "n") shared = cval →
              processXCell shared g ⟨coordStr (r, c), xt, some xv, none, some (str.drop 1)⟩
                = dictSet (r, c) (readCell ⟨some (.s str), some "formula", some str, some cval, hl⟩) g := by
            intro xt xv hparse
            rw [processXCell_eval shared g r c hr hc, hg]
            refine congrArg (fun x => dictSet (r, c) x g) ?_
            rw [readXCellAt]
            rw [if_neg hne]
            rw [if_neg (show ¬ (is_formulaStr (List.drop 1 str) = true) from by rw [hnf]; exact Bool.false_ne_true)]
            rw [show ('=' :: List.drop 1 str) = str from hshape.symm]
            rw [hparse]
            rw [readCell]
            rfl
          cases cval with
          | i n =>
            show processXCell shared g ⟨coordStr (r, c), none, some (intStr n), none, some (str.drop 1)⟩ = _
            exact key none (intStr n) (parse_cell_int shared n)
          | f q =>
            obtain ⟨d, hd⟩ := Option.isSome_iff_exists.mp hcalc
            show processXCell shared g ⟨coordStr (r, c), none, some (pyFloatStr q), none, some (str.drop 1)⟩ = _
            exact key none (pyFloatStr q) (parse_cell_float shared hd)
          | b bv =>
            show processXCell shared g ⟨coordStr (r, c), some "b", some (if bv then ['1'] else ['0']), none, some (str.drop 1)⟩ = _
            exact key (some "b") (if bv then ['1'] else ['0']) (parse_cell_bool shared bv)
          | s cs =>
            show processXCell shared g (if cs ∈ shared then ⟨coordStr (r, c), some "s", some (natStr (idxOf cs shared)), none, some (List.drop 1 str)⟩ else ⟨coordStr (r, c), some "str", some cs, none, some (List.drop 1 str)⟩) = _
            by_cases hcs : cs ∈ shared
            · rw [if_pos hcs]
              exact key (some "s") (natStr (idxOf cs shared)) (parse_cell_sharedstr shared hcs)
            · rw [if_neg hcs]
              exact key (some "str") cs (parse_cell_str shared cs)
      · -- a plain string cell
        have hfs2 : is_formulaStr str = false := by
          cases h2 : is_formulaStr str
          · rfl
          · exact absurd h2 hfs
        rw [if_neg hfs] at hval
        simp only [Bool.and_eq_true, decide_eq_true_eq] at hval
        obtain ⟨hfm, hcc⟩ := hval
        subst hdt
        subst hfm
        subst hcc
        have hnef : ¬ ((some (infer_data_type (some (CVal.s str))) : Option String) = some "formula") := by
          intro h2
          exact infer_ne_formula hfs2 (Option.some.inj h2)
        have hmem : str ∈ shared := hsh str rfl hnef
        show processXCell shared g (if (some (infer_data_type (some (CVal.s str))) : Option String) = some "formula" then _ else if str ∈ shared then ⟨coordStr (r, c), some "s", some (natStr (idxOf str shared)), none, none⟩ else ⟨coordStr (r, c), some "inlineStr", none, some str, none⟩) = _
        rw [if_neg hnef, if_pos hmem]
        rw [processXCell_eval shared g r c hr hc, hg]
        refine congrArg (fun x => dictSet (r, c) x g) ?_
        show ({ emptyCell with value := some (parse_cell_value (natStr (idxOf str shared)) "s" shared), dataType := some (infer_data_type (some (parse_cell_value (natStr (idxOf str shared)) "s" shared))) } : WCell) = _
        rw [parse_cell_sharedstr shared hmem]
        rfl

theorem wfCell_bounds {rc : Nat × Nat} {cell : WCell} (h : wfCell (rc, cell) = true) :
    1 ≤ rc.1 ∧ 1 ≤ rc.2 := by
  simp only [wfCell, Bool.and_eq_true, decide_eq_true_eq] at h
  exact h.1

theorem wfCell_value_isSome {rc : Nat × Nat} {cell : WCell} (h : wfCell (rc, cell) = true) :
    cell.value.isSome = true := by
  simp only [wfCell, Bool.and_eq_true, decide_eq_true_eq] at h
  obtain ⟨-, hrest⟩ := h
  cases hv : cell.value with
  | none => rw [hv] at hrest; simp at hrest
  | some v => rfl

theorem wf_hyper_none {rc : Nat × Nat} {cell : WCell} (hwf : wfCell (rc, cell) = true)
    (hh : has_hyperlink cell = false) : cell.hyperlink = none := by
  simp only [wfCell, Bool.and_eq_true, decide_eq_true_eq] at hwf
  obtain ⟨-, hrest⟩ := hwf
  cases hv : cell.value with
  | none => rw [hv] at hrest; simp at hrest
  | some v =>
    rw [hv] at hrest
    simp only [Bool.and_eq_true] at hrest
    obtain ⟨⟨-, hhl⟩, -⟩ := hrest
    rw [has_hyperlink] at hh
    cases hhyp : cell.hyperlink with
    | none => rfl
    | some h0 =>
      rw [hhyp] at hh hhl
      have hh2 : (!(h0.all isPySpace)) = false := hh
      have hhl2 : (!(h0.all isPySpace)) = true := hhl
      exact absurd (hh2.symm.trans hhl2) Bool.false_ne_true

theorem readCell_of_none_hyper {cell : WCell} (h : cell.hyperlink = none) :
    readCell cell = cell := by
  obtain ⟨v, dt, fm, cc, hl⟩ := cell
  rw [readCell]
  simp only at h
  rw [h]

theorem hyper_isSome {cell : WCell} (h : has_hyperlink cell = true) :
    ∃ h0, cell.hyperlink = some h0 := by
  rw [has_hyperlink] at h
  cases hh : cell.hyperlink with
  | none => rw [hh] at h; exact absurd h (by simp)
  | some h0 => exact ⟨h0, rfl⟩

theorem keysNodup_filter (p : (Nat × Nat) × WCell → Bool) :
    ∀ {l : List ((Nat × Nat) × WCell)}, keysNodup l = true → keysNodup (l.filter p) = true := by
  intro l
  induction l with
  | nil => intro h; exact h
  | cons e es ih =>
    intro h
    rw [keysNodup, Bool.and_eq_true] at h
    rw [List.filter_cons]
    split
    · rw [keysNodup, Bool.and_eq_true]
      refine ⟨?_, ih h.2⟩
      rw [List.all_eq_true]
      intro e2 hm2
      rw [List.all_eq_true] at h
      exact h.1 e2 (List.mem_of_mem_filter hm2)
    · exact ih h.2

theorem write_sheet_list (shared : List (List Char)) :
    ∀ (l g : List ((Nat × Nat) × WCell)),
      (∀ e ∈ l, wfCell e = true) →
      (∀ e ∈ l, ∀ str, e.2.value = some (.s str) →
        ¬ e.2.dataType = some "formula" → str ∈ shared) →
      keysNodup l = true →
      (∀ e ∈ l, dictGet e.1 g = none) →
      process_sheet_data shared (l.map (fun e => write_cell shared e.1 e.2)) g
        = g ++ l.map (fun e => (e.1, readCell e.2)) := by
  intro l
  induction l with
  | nil => intro g _ _ _ _; simp [process_sheet_data]
  | cons e es ih =>
    intro g hwf hsh hnd hg
    rw [List.map_cons, process_sheet_data]
    have hstep : processXCell shared g (write_cell shared e.1 e.2)
        = dictSet e.1 (readCell e.2) g := by
      have := write_read_cell shared e.1 e.2 g
        (by rw [show (e.1, e.2) = e from rfl]; exact hwf e (List.mem_cons_self e es))
        (hsh e (List.mem_cons_self e es)) (hg e (List.mem_cons_self e es))
      exact this
    rw [hstep, dictSet_append _ _ _ (hg e (List.mem_cons_self e es))]
    rw [keysNodup, Bool.and_eq_true] at hnd
    rw [ih (g ++ [(e.1, readCell e.2)])
      (fun e2 hm => hwf e2 (List.mem_cons_of_mem e hm))
      (fun e2 hm => hsh e2 (List.mem_cons_of_mem e hm))
      hnd.2
      (by
        intro e2 hm
        rw [dictGet_append]
        rw [hg e2 (List.mem_cons_of_mem e hm)]
        rw [List.all_eq_true] at hnd
        have hne := hnd.1 e2 hm
        simp only [Bool.not_eq_true', decide_eq_false_iff_not] at hne
        rw [dictGet, if_neg (fun hh => hne hh.symm)]
        rfl)]
    rw [List.map_cons, List.append_assoc]
    rfl

theorem write_sheet_data_eq_map (shared : List (List Char))
    (cells : List ((Nat × Nat) × WCell)) (hwf : ∀ e ∈ cells, wfCell e = true) :
    write_sheet_data shared cells
      = (sortCells cells).map (fun e => write_cell shared e.1 e.2) := by
  rw [write_sheet_data]
  have hwfs : ∀ e ∈ sortCells cells, wfCell e = true := by
    intro e hm
    exact hwf e ((sortCells_perm cells).mem_iff.mp hm)
  generalize hsc : sortCells cells = l at hwfs ⊢
  clear hsc
  induction l with
  | nil => rfl
  | cons e es ih =>
    rw [List.filterMap_cons, List.map_cons]
    have hv := wfCell_value_isSome
      (show wfCell (e.1, e.2) = true from hwfs e (List.mem_cons_self e es))
    cases hval : e.2.value with
    | none => rw [hval] at hv; exact absurd hv (by simp)
    | some v =>
      rw [ih (fun e2 hm => hwfs e2 (List.mem_cons_of_mem e hm))]

theorem read_grid_lookup (ws : WSheet) (hnd : keysNodup ws.cells = true)
    (hwf : ∀ e ∈ ws.cells, wfCell e = true) (rc : Nat × Nat) :
    dictGet rc (process_sheet_data (build_shared_strings ws.cells)
        (write_sheet_data (build_shared_strings ws.cells) ws.cells) [])
      = (dictGet rc ws.cells).map readCell := by
  have hperm := sortCells_perm ws.cells
  have hndk : (ws.cells.map Prod.fst).Nodup := keysNodup_iff.mp hnd
  have hnds : keysNodup (sortCells ws.cells) = true :=
    keysNodup_iff.mpr (((hperm.map Prod.fst).nodup_iff).mpr hndk)
  rw [write_sheet_data_eq_map _ _ hwf]
  rw [write_sheet_list (build_shared_strings ws.cells) (sortCells ws.cells) []
    (fun e hm => hwf e (hperm.mem_iff.mp hm))
    (by
      intro e hm str hv hf
      obtain ⟨rc2, c2⟩ := e
      exact build_shared_mem (hperm.mem_iff.mp hm) hv hf)
    hnds
    (fun e _ => rfl)]
  rw [List.nil_append]
  rw [dictGet_map rc readCell (sortCells ws.cells)]
  rw [dictGet_eq_of_perm hperm hndk rc]

theorem rels_lookup :
    ∀ (hs : List ((Nat × Nat) × WCell)) (i k : Nat) (hk : k < hs.length),
      dictGet (rIdStr (i + k)) (mkRels i hs)
        = some ((hs.get ⟨k, hk⟩).2.hyperlink.getD []) := by
  intro hs
  induction hs with
  | nil => intro i k hk; exact absurd hk (by simp)
  | cons e es ih =>
    intro i k hk
    cases k with
    | zero =>
      rw [mkRels, dictGet, if_pos (congrArg rIdStr (Nat.add_zero i).symm)]
      rfl
    | succ k2 =>
      rw [mkRels, dictGet, if_neg (by
        intro hEq
        have := rIdStr_inj hEq
        omega)]
      have hk2 : k2 < es.length := by simp only [List.length_cons] at hk; omega
      have hstep := ih (i + 1) k2 hk2
      rw [show i + 1 + k2 = i + (k2 + 1) from by omega] at hstep
      exact hstep

theorem hyper_pass (R : List (List Char × List Char)) :
    ∀ (hs : List ((Nat × Nat) × WCell)) (i : Nat) (g : List ((Nat × Nat) × WCell)),
      (∀ k (hk : k < hs.length),
        dictGet (rIdStr (i + k)) R = some ((hs.get ⟨k, hk⟩).2.hyperlink.getD [])) →
      (∀ e ∈ hs, 1 ≤ e.1.1 ∧ 1 ≤ e.1.2) →
      keysNodup hs = true →
      ∀ rc, dictGet rc (process_hyperlinks R (mkHyperElems i hs) g)
        = match dictGet rc hs with
          | some ch =>
            some { (dictGet rc g).getD emptyCell with
              hyperlink := some (ch.hyperlink.getD []) }
          | none => dictGet rc g := by
  intro hs
  induction hs with
  | nil =>
    intro i g _ _ _ rc
    rw [mkHyperElems, process_hyperlinks, dictGet]
  | cons e es ih =>
    obtain ⟨⟨er, ec⟩, ecl⟩ := e
    intro i g hR hb hnd rc
    obtain ⟨hr1, hc1⟩ := hb ((er, ec), ecl) (List.mem_cons_self _ _)
    rw [mkHyperElems, process_hyperlinks]
    have h0 := hR 0 (by simp)
    rw [Nat.add_zero] at h0
    have h0b : dictGet (rIdStr i) R = some (ecl.hyperlink.getD []) := h0
    have hstep : processHyper R g (coordStr (er, ec), rIdStr i)
        = dictSet (er, ec)
            { (dictGet (er, ec) g).getD emptyCell with
              hyperlink := some (ecl.hyperlink.getD []) } g := by
      simp only [processHyper]
      rw [if_neg (by
        push_neg
        exact ⟨coordStr_ne_nil er ec hr1 hc1, by simp [rIdStr]⟩)]
      rw [h0b]
      rw [coordinate_to_tuple_coordStr er ec hr1 hc1]
    rw [hstep]
    rw [keysNodup, Bool.and_eq_true] at hnd
    have hR2 : ∀ k (hk : k < es.length),
        dictGet (rIdStr (i + 1 + k)) R = some ((es.get ⟨k, hk⟩).2.hyperlink.getD []) := by
      intro k hk
      have hnext := hR (k + 1) (by simp only [List.length_cons]; omega)
      rw [show i + (k + 1) = i + 1 + k from by omega] at hnext
      exact hnext
    rw [ih (i + 1) (dictSet (er, ec)
      { (dictGet (er, ec) g).getD emptyCell with
        hyperlink := some (ecl.hyperlink.getD []) } g)
      hR2 (fun e2 hm => hb e2 (List.mem_cons_of_mem _ hm)) hnd.2 rc]
    by_cases hrc : rc = (er, ec)
    · subst hrc
      have hnone : dictGet ((er, ec) : Nat × Nat) es = none := by
        rw [dictGet_none_iff]
        intro hk
        rcases List.mem_map.mp hk with ⟨e2, hm2, he2⟩
        rw [List.all_eq_true] at hnd
        have hne2 := hnd.1 e2 hm2
        simp only [Bool.not_eq_true', decide_eq_false_iff_not] at hne2
        exact hne2 he2
      rw [hnone]
      rw [show dictGet ((er, ec) : Nat × Nat) (((er, ec), ecl) :: es) = some ecl from by
        rw [dictGet]; rw [if_pos rfl]]
      exact dictGet_dictSet_self (er, ec) _ g
    · rw [dictGet_dictSet_other (er, ec) rc _ hrc g]
      rw [show dictGet rc (((er, ec), ecl) :: es) = dictGet rc es from by
        rw [dictGet]; rw [if_neg (fun h => hrc h.symm)]]

theorem foldl_setAdd_nodup :
    ∀ (l : List (List Char)) (acc : List (List Char)), mergesNodup l = true →
      (∀ m ∈ l, ¬ m ∈ acc ∧ ¬ m = []) →
      l.foldl (fun acc r => if r = [] then acc else setAdd r acc) acc = acc ++ l := by
  intro l
  induction l with
  | nil => intro acc _ _; simp
  | cons m ms ih =>
    intro acc hnd hcond
    obtain ⟨hmacc, hmne⟩ := hcond m (List.mem_cons_self m ms)
    rw [mergesNodup, Bool.and_eq_true] at hnd
    simp only [Bool.not_eq_true', decide_eq_false_iff_not] at hnd
    rw [List.foldl_cons, if_neg hmne, setAdd, if_neg hmacc]
    rw [ih (acc ++ [m]) hnd.2 (by
      intro m2 hm2
      obtain ⟨h1, h2⟩ := hcond m2 (List.mem_cons_of_mem m hm2)
      refine ⟨?_, h2⟩
      intro hmem
      rcases List.mem_append.mp hmem with h3 | h3
      · exact h1 h3
      · have : m2 = m := by simpa using h3
        exact hnd.1 (this ▸ hm2))]
    rw [List.append_assoc]
    rfl

theorem read_write_cells (ws : WSheet) :
    (read_workbook (write_workbook ws)).cells
      = (if mkHyperElems 1 (hyperCells ws.cells) = []
          then process_sheet_data (build_shared_strings ws.cells)
            (write_sheet_data (build_shared_strings ws.cells) ws.cells) []
          else process_hyperlinks (mkRels 1 (hyperCells ws.cells))
            (mkHyperElems 1 (hyperCells ws.cells))
            (process_sheet_data (build_shared_strings ws.cells)
              (write_sheet_data (build_shared_strings ws.cells) ws.cells) [])) := rfl

theorem read_write_merged (ws : WSheet) :
    (read_workbook (write_workbook ws)).merged
      = ws.merged.foldl (fun acc r => if r = [] then acc else setAdd r acc) [] := rfl

/-- C1: saving a well-formed single-sheet grid to an xlsx package and loading
that package reproduces every cell exactly — value, inferred kind tag,
formula text with its cached result, and hyperlink — together with the set of
merged ranges; cells absent before are absent after. -/
theorem C1_xlsx_roundtrip (ws : WSheet) (h : wellFormedSheet ws = true) :
    (∀ rc : Nat × Nat,
      dictGet rc (read_workbook (write_workbook ws)).cells = dictGet rc ws.cells)
    ∧ (read_workbook (write_workbook ws)).merged = ws.merged := by
  rw [wellFormedSheet] at h
  simp only [Bool.and_eq_true] at h
  obtain ⟨⟨⟨hnd, hwfall⟩, hmnd⟩, hmne⟩ := h
  have hwf : ∀ e ∈ ws.cells, wfCell e = true := by
    rw [List.all_eq_true] at hwfall
    exact hwfall
  have hgl := read_grid_lookup ws hnd hwf
  refine ⟨?_, ?_⟩
  · intro rc
    rw [read_write_cells]
    by_cases hcase : mkHyperElems 1 (hyperCells ws.cells) = []
    · rw [if_pos hcase, hgl rc]
      cases hc : dictGet rc ws.cells with
      | none => rfl
      | some cell =>
        show some (readCell cell) = some cell
        have hs_nil : hyperCells ws.cells = [] := by
          cases hxs : hyperCells ws.cells with
          | nil => rfl
          | cons a l => rw [hxs, mkHyperElems] at hcase; exact absurd hcase (by simp)
        have hmem : (rc, cell) ∈ ws.cells := mem_of_dictGet hc
        have hnh : has_hyperlink cell = false := by
          cases hhb : has_hyperlink cell
          · rfl
          · have hmf : (rc, cell) ∈ hyperCells ws.cells := List.mem_filter.mpr ⟨hmem, hhb⟩
            rw [hs_nil] at hmf
            exact absurd hmf (by simp)
        rw [readCell_of_none_hyper (wf_hyper_none
          (show wfCell (rc, cell) = true from hwf _ hmem) hnh)]
    · rw [if_neg hcase]
      have hsnodup : keysNodup (hyperCells ws.cells) = true := keysNodup_filter _ hnd
      have hbounds : ∀ e ∈ hyperCells ws.cells, 1 ≤ e.1.1 ∧ 1 ≤ e.1.2 := by
        intro e hm
        exact wfCell_bounds
          (show wfCell (e.1, e.2) = true from hwf e (List.mem_of_mem_filter hm))
      rw [hyper_pass (mkRels 1 (hyperCells ws.cells)) (hyperCells ws.cells) 1 _
        (rels_lookup (hyperCells ws.cells) 1) hbounds hsnodup rc]
      rw [hgl rc]
      cases hc : dictGet rc ws.cells with
      | none =>
        have hchs : dictGet rc (hyperCells ws.cells) = none := by
          rw [dictGet_none_iff]
          intro hk
          rcases List.mem_map.mp hk with ⟨e2, hm2, he2⟩
          have hk2 : e2.1 ∈ ws.cells.map Prod.fst :=
            List.mem_map_of_mem _ (List.mem_of_mem_filter hm2)
          rw [he2] at hk2
          exact (dictGet_none_iff.mp hc) hk2
        rw [hchs]
        rfl
      | some cell =>
        have hmem : (rc, cell) ∈ ws.cells := mem_of_dictGet hc
        by_cases hhb : has_hyperlink cell = true
        · have hmemf : (rc, cell) ∈ hyperCells ws.cells := List.mem_filter.mpr ⟨hmem, hhb⟩
          have hchs : dictGet rc (hyperCells ws.cells) = some cell :=
            dictGet_of_mem_nodup hmemf (keysNodup_iff.mp hsnodup)
          rw [hchs]
          obtain ⟨h0, hh0⟩ := hyper_isSome hhb
          obtain ⟨v, dt, fm, cc, hl⟩ := cell
          have hh0b : hl = some h0 := hh0
          subst hh0b
          rfl
        · have hnh : has_hyperlink cell = false := by
            cases hhbb : has_hyperlink cell
            · rfl
            · exact absurd hhbb hhb
          have hchs : dictGet rc (hyperCells ws.cells) = none := by
            rw [dictGet_none_iff]
            intro hk
            rcases List.mem_map.mp hk with ⟨e2, hm2, he2⟩
            have hm2c := List.mem_of_mem_filter hm2
            obtain ⟨k2, c2⟩ := e2
            have he2b : k2 = rc := he2
            subst he2b
            have hlook : dictGet k2 ws.cells = some c2 :=
              dictGet_of_mem_nodup hm2c (keysNodup_iff.mp hnd)
            rw [hc] at hlook
            have hc2 : c2 = cell := (Option.some.inj hlook).symm
            have hfpred : has_hyperlink c2 = true := by
              have := (List.mem_filter.mp hm2).2
              simpa using this
            rw [hc2, hnh] at hfpred
            exact absurd hfpred Bool.false_ne_true
          rw [hchs]
          show some (readCell cell) = some cell
          rw [readCell_of_none_hyper (wf_hyper_none
            (show wfCell (rc, cell) = true from hwf _ hmem) hnh)]
  · rw [read_write_merged]
    rw [foldl_setAdd_nodup ws.merged [] hmnd (by
      intro m hm
      refine ⟨by simp, ?_⟩
      rw [List.all_eq_true] at hmne
      have := hmne m hm
      simpa using this)]
    rw [List.nil_append]

/-- A concrete grid exercising every round-tripped kind: a string with a
hyperlink, an int, a decimal float, a bool, a formula with a cached int and a
formula with a cached string, plus one merged range. -/
def demoSheet : WSheet :=
  ⟨[((1, 1), ⟨some (.s "hello".data), some "string", none, none,
      some "http://example.com".data⟩),
    ((1, 2), ⟨some (.i 42), some "number", none, none, none⟩),
    ((2, 1), ⟨some (.f (mkRatN 5 2)), some "number", none, none, none⟩),
    ((2, 2), ⟨some (.b true), some "boolean", none, none, none⟩),
    ((3, 1), ⟨some (.s "=SUM(A1:B1)".data), some "formula", some "=SUM(A1:B1)".data,
      some (.i 42), none⟩),
    ((3, 2), ⟨some (.s "=X1".data), some "formula", some "=X1".data,
      some (.s "hello".data), none⟩)],
   ["A1:B2".data]⟩

/-- Witness for C1: the round-trip theorem applied to the concrete grid. -/
theorem C1_xlsx_roundtrip_witness :
    (∀ rc : Nat × Nat,
      dictGet rc (read_workbook (write_workbook demoSheet)).cells
        = dictGet rc demoSheet.cells)
    ∧ (read_workbook (write_workbook demoSheet)).merged = demoSheet.merged :=
  C1_xlsx_roundtrip demoSheet (by decide)

end Aspose
